import Mathlib

/-!
# ccc: a shallow embedding of `ccc.c`

`ccc` compiles a C file with `dcc`, runs the produced `./a.out` while capturing its
`stderr` through a pipe, looks for runtime-failure markers in the captured text and,
when one is found (or when compilation failed), pretends to delete the user's files and
drops the user into a shell inside a fresh temporary directory.

The embedding follows the C source function by function.

* A `char` is a `Char` (a byte is a character below 256).  C strings are lists of
  characters (the bytes before the terminating NUL); a `char` buffer in memory is a
  list of characters whose length is the allocated size.
* Everything the operating system decides (results of system and library calls, the
  bytes the child writes, directory contents) is an input, collected in `World`.
* The process-wide state the program reads and mutates (working directory, environment,
  signal dispositions) together with the sequence of calls issued so far is `Proc`.
* A call either returns, terminates the program through `err`/`errx`/`exit`, or reaches
  undefined behaviour; this is `Res`.
* The `DEBUG` macro is `false`, so the `if (DEBUG)` blocks are dead code and are left out.
-/

namespace Ccc

/-! ## C strings and character buffers -/

/-- Contents of a C string: the characters before its terminating NUL. -/
abbrev CStr := List Char

/-- The terminator character of C strings. -/
def NUL : Char := Char.ofNat 0

/-- The C string that starts at the beginning of a character buffer: everything before
the first NUL.  This is what `strstr` and the `%s` conversion read. -/
def cstring (buf : List Char) : CStr := buf.takeWhile (fun c => c != NUL)

/-- Does `text` begin with `marker`?  (The comparison `strstr` does at one position.) -/
def startsWith : CStr → CStr → Bool
  | _, [] => true
  | [], _ :: _ => false
  | c :: cs, m :: ms => c == m && startsWith cs ms

/-- Model of libc `strstr`: the offset of the first occurrence of `needle` in
`haystack`, scanning left to right, or `none` (a NULL result) when there is none. -/
def strstr : CStr → CStr → Option Nat
  | [], needle => if needle.isEmpty then some 0 else none
  | c :: cs, needle =>
    if startsWith (c :: cs) needle then some 0
    else (strstr cs needle).map (fun i => i + 1)

/-- `text` contains `marker` as a contiguous substring, at any position and with any
surrounding content. -/
def Contains (text marker : List Char) : Prop :=
  ∃ before after, text = before ++ marker ++ after

/-- The four literals searched for by `findError`, in source order. -/
def errorMarkers : List CStr :=
  ["Runtime error".toList, "Execution terminated".toList,
   "Execution stopped".toList, "dcc-help".toList]

/-- `findError` (ccc.c 223-229).  The argument is the character buffer the pointer
`stderrOutput` designates; `strstr` reads it as a C string. -/
def findError (stderrOutput : List Char) : Bool :=
  (strstr (cstring stderrOutput) "Runtime error".toList).isSome ||
  (strstr (cstring stderrOutput) "Execution terminated".toList).isSome ||
  (strstr (cstring stderrOutput) "Execution stopped".toList).isSome ||
  (strstr (cstring stderrOutput) "dcc-help".toList).isSome

/-! ## The capture buffer of `spawnCompiledApp` (ccc.c 178-195) -/

/-- Arithmetic on `size_t` wraps modulo this value (64-bit `size_t`). -/
def SIZE_MOD : Nat := 2 ^ 64

/-- The local variables of the read loop: the heap buffer (its length is the size of the
allocation), the capacity variable and the logical length. -/
structure Capture where
  stderrOutput : List Char
  maxOutputSize : Nat
  outputCount : Nat
  deriving DecidableEq, Repr

/-- Ways the capture can stop before the buffer is handed to `findError`. -/
inductive CaptureFault where
  /-- `realloc` returned NULL: `err(EXIT_FAILURE, "Failed to realloc buffer")`. -/
  | reallocFailed
  /-- A store to `stderrOutput[index]` with `index` not below the allocation size
  `size`: a write outside the heap block, which is undefined behaviour. -/
  | outOfBounds (index size : Nat)
  deriving DecidableEq, Repr

/-- Result of `calloc(128, sizeof(char))` with the two counters: 128 zero bytes. -/
def Capture.initial : Capture :=
  { stderrOutput := List.replicate 128 NUL, maxOutputSize := 128, outputCount := 0 }

/-- Model of a successful `realloc(buf, size)`: a block of `size` bytes whose first
`min size buf.length` bytes are those of `buf`; the other bytes are indeterminate and
are supplied by `junk`. -/
def realloc (junk : Nat → Char) (buf : List Char) (size : Nat) : List Char :=
  (List.range size).map (fun i => buf.getD i (junk i))

/-- The growth step in the loop body (ccc.c 186-191):
`maxOutputSize *= 2; stderrOutput = realloc(stderrOutput, maxOutputSize);`. -/
def Capture.grow (reallocOk : Nat → Bool) (junk : Nat → Char) (st : Capture) :
    Except CaptureFault Capture :=
  let maxOutputSize := (st.maxOutputSize * 2) % SIZE_MOD
  if reallocOk maxOutputSize then
    .ok { st with maxOutputSize := maxOutputSize,
                  stderrOutput := realloc junk st.stderrOutput maxOutputSize }
  else .error .reallocFailed

/-- The store `stderrOutput[index] = c`. -/
def Capture.store (st : Capture) (index : Nat) (c : Char) : Except CaptureFault Capture :=
  if index < st.stderrOutput.length then
    .ok { st with stderrOutput := st.stderrOutput.set index c }
  else .error (.outOfBounds index st.stderrOutput.length)

/-- One iteration of the loop body (ccc.c 186-193) for the character just read. -/
def Capture.append (reallocOk : Nat → Bool) (junk : Nat → Char) (st : Capture)
    (readChar : Char) : Except CaptureFault Capture :=
  match (if st.outputCount ≥ st.maxOutputSize then st.grow reallocOk junk else .ok st) with
  | .error e => .error e
  | .ok st1 =>
    match st1.store st1.outputCount readChar with
    | .error e => .error e
    | .ok st2 => .ok { st2 with outputCount := st2.outputCount + 1 }

/-- The loop `while ((readChar = fgetc(childStderr)) != EOF) { ... }` (ccc.c 185-194):
`stream` is what is still to be read from the pipe; the empty list is end-of-stream.
The result is the state at loop exit. -/
def readLoop (reallocOk : Nat → Bool) (junk : Nat → Char) :
    List Char → Capture → Except CaptureFault Capture
  | [], st => .ok st
  | readChar :: rest, st =>
    match st.append reallocOk junk readChar with
    | .error e => .error e
    | .ok st1 => readLoop reallocOk junk rest st1

/-- The statement after the loop (ccc.c 195): `stderrOutput[outputCount] = '\0';`. -/
def Capture.terminate (st : Capture) : Except CaptureFault Capture :=
  st.store st.outputCount NUL

/-- Lines 178-195 as a whole, from the fresh buffer to the terminated buffer. -/
def capture (reallocOk : Nat → Bool) (junk : Nat → Char) (stream : List Char) :
    Except CaptureFault Capture :=
  match readLoop reallocOk junk stream Capture.initial with
  | .error e => .error e
  | .ok st => st.terminate

/-! ## Process state, observable calls and outcomes -/

/-- Disposition of a signal. -/
inductive Disposition where
  /-- `SIG_DFL`. -/
  | default
  /-- `SIG_IGN`. -/
  | ignore
  /-- A handler function is installed. -/
  | handler
  deriving DecidableEq, Repr

/-- Signal numbers of `<signal.h>` (Linux values). -/
def SIGHUP : Nat := 1

/-- The kill signal. -/
def SIGKILL : Nat := 9

/-- The stop signal. -/
def SIGSTOP : Nat := 19

/-- `EXIT_FAILURE` of `<stdlib.h>`. -/
def EXIT_FAILURE : Nat := 1

/-- `STDERR_FILENO` of `<unistd.h>`. -/
def STDERR_FILENO : Nat := 2

/-- An entry of a `posix_spawn_file_actions_t` object. -/
inductive FileAction where
  | adddup2 (fd newfd : Nat)
  | addclose (fd : Nat)
  deriving DecidableEq, Repr

/-- The calls through which the program acts on the world outside its own memory, with
the arguments that matter.  Spawn calls also record the `environ` argument and the
working directory the child inherits. -/
inductive Event where
  /-- Text written to `stdout`. -/
  | printf (text : List Char)
  /-- Text written to `stderr` by `fprintf(stderr, ...)`. -/
  | fprintfStderr (text : List Char)
  | posix_spawnp (file : Option CStr) (argv : List (Option CStr))
      (envp : List (CStr × CStr)) (cwd : CStr)
  | posix_spawn (path : CStr) (fileActions : List FileAction) (argv : List (Option CStr))
      (envp : List (CStr × CStr)) (cwd : CStr)
  | waitpid
  | pipe
  | close (fd : Nat)
  | fdopen (fd : Nat)
  | fclose
  /-- A call `sigaction(signal, {.sa_handler = SIG_IGN}, NULL)`. -/
  | sigaction (signal : Nat)
  | opendir (path : CStr)
  | closedir
  | usleep (usec : Nat)
  /-- A call of `mkdtemp`; `created` is the directory it made, `none` when it failed. -/
  | mkdtemp (created : Option CStr)
  | chdir (path : CStr)
  | setenv (name value : CStr) (overwrite : Nat)
  deriving DecidableEq, Repr

/-- The calls that create, remove or change a file-system entry. -/
def Event.isFsMutation : Event → Bool
  | .mkdtemp (some _) => true
  | _ => false

/-- The calls by which the produced executable is run: creating the capture pipe and
`posix_spawn` (only `spawnCompiledApp` uses `posix_spawn`; `dcc` and the shell are
started with `posix_spawnp`). -/
def Event.isAppLaunch : Event → Bool
  | .pipe => true
  | .posix_spawn _ _ _ _ _ => true
  | _ => false

/-- The process-wide state and the calls issued so far (oldest first). -/
structure Proc where
  cwd : CStr
  env : List (CStr × CStr)
  sig : Nat → Disposition
  trace : List Event

/-- Record a call. -/
def Proc.emit (p : Proc) (e : Event) : Proc := { p with trace := p.trace ++ [e] }

/-- Model of `getenv`: the value of the first binding of `name`, `none` for NULL. -/
def getenv (env : List (CStr × CStr)) (name : CStr) : Option CStr :=
  (env.find? (fun b => b.1 == name)).map (fun b => b.2)

/-- Model of a successful `setenv(name, value, 1)`: the first binding of `name` is
replaced where it stands; when there is none the new binding is added at the end. -/
def setenvList : List (CStr × CStr) → CStr → CStr → List (CStr × CStr)
  | [], name, value => [(name, value)]
  | b :: rest, name, value =>
    if b.1 == name then (name, value) :: rest else b :: setenvList rest name value

/-- Outcome of a call. -/
inductive Res (α : Type) where
  /-- The call returned `a`. -/
  | ok (a : α) (p : Proc)
  /-- The program printed a diagnostic built from `message` on `stderr` and terminated
  with `status` (`err`, `errx`, or `perror` followed by `exit`). -/
  | fatal (status : Nat) (message : String) (p : Proc)
  /-- Undefined behaviour was reached; `p` is the state just before. -/
  | undefined (p : Proc)

/-- Sequencing: continue with `f` when the call returned. -/
def Res.bind {α β : Type} (r : Res α) (f : α → Proc → Res β) : Res β :=
  match r with
  | .ok a p => f a p
  | .fatal s m p => .fatal s m p
  | .undefined p => .undefined p

/-- The process state in which the call ended. -/
def Res.proc {α : Type} : Res α → Proc
  | .ok _ p => p
  | .fatal _ _ p => p
  | .undefined p => p

/-- Everything the operating system and the child processes decide during one run. -/
structure World where
  /-- Does `calloc` for the argument vector succeed? -/
  callocArgs : Bool
  /-- Does the `strdup` whose result is stored in the given slot of the argument vector
  return a copy?  (`false`: it returns NULL, out of memory.) -/
  strdup : Nat → Bool
  /-- Return value of `posix_spawnp` for `dcc` (0 is success). -/
  dccSpawn : Nat
  /-- Result of `waitpid` for `dcc`: `none` when it returns -1, else the status word. -/
  dccWait : Option Int
  /-- Result of `pipe`: `none` for -1, else `(pipeFd[0], pipeFd[1])`. -/
  pipe : Option (Nat × Nat)
  fileActionsInit : Nat
  adddup2 : Nat
  addcloseRead : Nat
  addcloseWrite : Nat
  /-- Return value of `posix_spawn` for `./a.out`. -/
  appSpawn : Nat
  /-- Does `fdopen` return a stream? -/
  fdopen : Bool
  /-- Does `calloc` for the capture buffer succeed? -/
  callocBuffer : Bool
  /-- The bytes the child writes to its `stderr` before end-of-stream. -/
  childStderr : List Char
  /-- Does `realloc` to the given size succeed? -/
  realloc : Nat → Bool
  /-- Indeterminate contents of freshly reallocated bytes. -/
  reallocJunk : Nat → Char
  appWait : Option Int
  /-- What `fprintf` puts on `stderr` when the output is longer than `INT_MAX` bytes and
  the call fails with `EOVERFLOW`; the C library does not say what that is. -/
  fprintfOverflow : List Char
  /-- Does `sigaction` for the given signal succeed? -/
  sigaction : Nat → Bool
  /-- Result of `opendir`, with the names `readdir` then yields, in order. -/
  opendir : CStr → Option (List CStr)
  /-- Result of `mkdtemp`: the characters put in place of `XXXXXX`, `none` for NULL. -/
  mkdtemp : Option CStr
  chdir : CStr → Bool
  setenv : Bool
  /-- Return value of `posix_spawnp` for the shell. -/
  shellSpawn : Nat

/-! ## The functions of `ccc.c` -/

/-- `COMPILED_APP_NAME` (ccc.c 15). -/
def COMPILED_APP_NAME : CStr := "a.out".toList

/-- `EXTRA_ARGS` (ccc.c 65). -/
def EXTRA_ARGS : Nat := 2

/-- `struct DccArgs` (ccc.c 21-24): the slots of the vector (`none` is NULL) and its
length field. -/
structure DccArgs where
  args : List (Option CStr)
  length : Nat

/-- Model of `strdup`: a pointer to a copy of the string, or NULL when the copy cannot
be allocated (`copied = false`).  The argument is never NULL for an `argv` that holds
`argc` strings. -/
def strdup (copied : Bool) (s : Option CStr) : Option CStr :=
  if copied then s else none

/-- `constructDccArgs` (ccc.c 63-88).  All stores are inside the `calloc`ed block of
`argc + 3` slots, so `List.set` is the store; `argv[i]` is `none` from `argv[argc]` on.
For `0 ≤ argc ≤ INT_MAX` none of the index computations (in `size_t` and `unsigned`)
wraps, so they are done in `Nat`.  The results of `strdup` are stored unchecked. -/
def constructDccArgs (w : World) (argc : Nat) (argv : List CStr) (p : Proc) : Res DccArgs :=
  if !w.callocArgs then .fatal EXIT_FAILURE "Failed to calloc DccArgs" p
  else
    let length := argc + EXTRA_ARGS + 1
    let args : List (Option CStr) := List.replicate (argc + EXTRA_ARGS + 1) none
    let args := args.set 0 (strdup (w.strdup 0) (some "dcc".toList))
    let args := args.set 1 (strdup (w.strdup 1) (some "-o".toList))
    let args := args.set 2 (strdup (w.strdup 2) (some COMPILED_APP_NAME))
    -- for (unsigned i = EXTRA_ARGS + 1; i < EXTRA_ARGS + argc; ++i)
    let args := (List.range' (EXTRA_ARGS + 1) (EXTRA_ARGS + argc - (EXTRA_ARGS + 1))).foldl
      (fun args i => args.set i (strdup (w.strdup i) argv[i - EXTRA_ARGS]?)) args
    let args := args.set (length - 1) none
    .ok { args := args, length := length } p

/-- `freeDccArgs` (ccc.c 90-97): releases memory, nothing observable. -/
def freeDccArgs (_args : DccArgs) (p : Proc) : Proc := p

/-- `spawnDcc` (ccc.c 99-120).  When `args->args[0]` is NULL (its `strdup` failed) the
call of `posix_spawnp` has a NULL file, which is undefined. -/
def spawnDcc (w : World) (args : DccArgs) (p : Proc) : Res Bool :=
  let p := p.emit (.posix_spawnp (args.args.getD 0 none) args.args p.env p.cwd)
  match args.args.getD 0 none with
  | none => .undefined p
  | some _ =>
    if w.dccSpawn ≠ 0 then .fatal EXIT_FAILURE "Couldn't spawn %s" p
    else
      let p := p.emit .waitpid
      match w.dccWait with
      | none => .fatal EXIT_FAILURE "Couldn't wait for %s, (PID %d)" p
      | some exitStatus => .ok (exitStatus == 0) p

/-- The loop of `ignoreSignals` over the signal numbers still to visit. -/
def ignoreSignalsFrom (w : World) : List Nat → Proc → Res Unit
  | [], p => .ok () p
  | signal :: rest, p =>
    if signal == SIGKILL || signal == SIGSTOP || signal == SIGHUP then
      ignoreSignalsFrom w rest p
    else
      let p := p.emit (.sigaction signal)
      if w.sigaction signal then
        ignoreSignalsFrom w rest
          { p with sig := fun s => if s = signal then Disposition.ignore else p.sig s }
      else .fatal EXIT_FAILURE "Couldn't set signal %d" p

/-- `ignoreSignals` (ccc.c 260-272): `for (int signal = 1; signal < 32; ++signal)`. -/
def ignoreSignals (w : World) (p : Proc) : Res Unit :=
  ignoreSignalsFrom w (List.range' 1 31) p

/-- `fakeTemp` (ccc.c 274-311).  The `snprintf` into the local `buffer` has no effect
outside the function and is left out. -/
def fakeTemp (w : World) (p : Proc) : Res Unit :=
  match w.mkdtemp with
  | none => .fatal EXIT_FAILURE "Failed to create temporary directory" (p.emit (.mkdtemp none))
  | some suffix =>
    let tempDir := "/tmp/tmp.".toList ++ suffix
    let p := p.emit (.mkdtemp (some tempDir))
    let p := p.emit (.chdir tempDir)
    if !w.chdir tempDir then
      .fatal EXIT_FAILURE "Failed to change directory to temporary directory" p
    else
      let p := { p with cwd := tempDir }
      let p := p.emit (.setenv "HOME".toList tempDir 1)
      if !w.setenv then .fatal EXIT_FAILURE "Failed to set $HOME" p
      else
        let p := { p with env := setenvList p.env "HOME".toList tempDir }
        let userShell := getenv p.env "SHELL".toList
        let p := p.emit (.posix_spawnp userShell [userShell, none] p.env p.cwd)
        match userShell with
        | none => .undefined p
        | some _ =>
          if w.shellSpawn ≠ 0 then .fatal EXIT_FAILURE "Couldn't spawn %s" p
          else .ok () (p.emit .waitpid)

/-- The `readdir` loop of `pretendDelete` (ccc.c 245-252) over the entries still to be
returned. `d_name[0]` of an empty name is its terminator.  A `d_name` is a string in an
array of 256 bytes, so the line printed for it is far below `INT_MAX` bytes. -/
def listEntries : List CStr → Proc → Proc
  | [], p => p
  | d_name :: rest, p =>
    if d_name.headD NUL == '.' then listEntries rest p
    else
      listEntries rest
        ((p.emit (.printf ("Deleting ~/".toList ++ d_name ++ "\n".toList))).emit
          (.usleep 200000))

/-- `pretendDelete` (ccc.c 231-258). -/
def pretendDelete (w : World) (p : Proc) : Res Unit :=
  (ignoreSignals w p).bind fun _ p =>
    let p := p.emit (.printf "==< DELETING YOUR FILES... >==\n".toList)
    match getenv p.env "HOME".toList with
    | none => .fatal EXIT_FAILURE "Couldn't get $HOME" p
    | some homePath =>
      let p := p.emit (.opendir homePath)
      match w.opendir homePath with
      | none => .fatal EXIT_FAILURE "Couldn't open %s" p
      | some entries =>
        let p := listEntries entries p
        let p := p.emit .closedir
        let p := p.emit (.printf "\nTip: try writing correct code next time :)\n\n".toList)
        fakeTemp w p

/-- `INT_MAX` of `<limits.h>` (32-bit `int`). -/
def INT_MAX : Nat := 2 ^ 31 - 1

/-- Model of what `fprintf(stream, "%s\n", s)` writes: the string and a newline when
these are at most `INT_MAX` bytes, the largest count the call can return; otherwise
the call fails with `EOVERFLOW` and what it has written is `overflow`.  The code does
not look at the return value. -/
def fprintfLine (overflow : List Char) (s : CStr) : List Char :=
  if s.length + 1 ≤ INT_MAX then s ++ "\n".toList else overflow

/-- `spawnCompiledApp` (ccc.c 122-221).  `pipeFd[STDIN_FILENO]` is `pipeFd[0]`, the
read end, and `pipeFd[STDOUT_FILENO]` is `pipeFd[1]`, the write end.  The result of
`fdopen` is not checked; reading from a NULL stream is undefined. -/
def spawnCompiledApp (w : World) (p : Proc) : Res Unit :=
  let p := p.emit .pipe
  match w.pipe with
  | none => .fatal EXIT_FAILURE "Couldn't create pipe" p
  | some (pipeRead, pipeWrite) =>
    if w.fileActionsInit ≠ 0 then .fatal EXIT_FAILURE "Couldn't create file actions" p
    else if w.adddup2 ≠ 0 then .fatal EXIT_FAILURE "Couldn't adddup2" p
    else if w.addcloseRead ≠ 0 then .fatal EXIT_FAILURE "Couldn't addclose pipefd 0" p
    else if w.addcloseWrite ≠ 0 then .fatal EXIT_FAILURE "Couldn't addclose pipefd 1" p
    else
      let fileActions :=
        [FileAction.adddup2 pipeWrite STDERR_FILENO, .addclose pipeRead, .addclose pipeWrite]
      -- char childPath[strlen(COMPILED_APP_NAME) + 3]; snprintf(childPath, sizeof, "./%s", ..)
      let childPath := ("./".toList ++ COMPILED_APP_NAME).take (COMPILED_APP_NAME.length + 3 - 1)
      let p := p.emit (.posix_spawn childPath fileActions [some childPath, none] p.env p.cwd)
      if w.appSpawn ≠ 0 then .fatal EXIT_FAILURE "Couldn't spawn %s" p
      else
        let p := p.emit (.close pipeWrite)
        let p := p.emit (.fdopen pipeRead)
        if !w.callocBuffer then .fatal EXIT_FAILURE "Failed to calloc child output buffer" p
        else if !w.fdopen then .undefined p
        else
          match capture w.realloc w.reallocJunk w.childStderr with
          | .error .reallocFailed => .fatal EXIT_FAILURE "Failed to realloc buffer" p
          | .error (.outOfBounds _ _) => .undefined p
          | .ok st =>
            let p := p.emit .fclose
            let p := p.emit .waitpid
            match w.appWait with
            | none => .fatal EXIT_FAILURE "Couldn't wait for %s, (PID %d)" p
            | some _ =>
              if findError st.stderrOutput then
                pretendDelete w
                  (p.emit (.printf "\n==< UNDEFINED BEHAVIOUR DETECTED. GOODBYE. >==\n".toList))
              else
                -- fprintf(stderr, "%s\n", stderrOutput);
                let p := p.emit
                  (.fprintfStderr (fprintfLine w.fprintfOverflow (cstring st.stderrOutput)))
                .ok () (p.emit
                  (.printf "==< No errors found, your're safe... for now :) >==\n".toList))

/-- The banner printed first by `main` (ccc.c 37-42). -/
def banner : List Char :=
  ("===\n" ++ "Welcome to ccc! A compiler that compiles your C file, and " ++
   "then runs it.\n" ++ "If it encounters any undefined behaviour, it deletes all your " ++
   "files! How exciting!\n" ++ "===\n\n").toList

/-- `main` (ccc.c 35-61); falling off the end of `main` returns 0. -/
def main (w : World) (argc : Nat) (argv : List CStr) (p : Proc) : Res Nat :=
  let p := p.emit (.printf banner)
  if argc < 2 then
    .ok EXIT_FAILURE
      (p.emit (.fprintfStderr "===\nHow to use:\n~z5257526/ccc <your C file>\n===\n".toList))
  else
    (constructDccArgs w argc argv p).bind fun dccArgs p =>
    (spawnDcc w dccArgs p).bind fun dccOk p =>
    (if dccOk then
      spawnCompiledApp w
        (p.emit (.printf "==< Your program compiled! Now let's run it >:) >==\n\n".toList))
     else
      pretendDelete w
        (p.emit (.printf "==< YOUR PROGRAM FAILED TO COMPILE. GOODBYE. >==\n".toList))).bind
    fun _ p => .ok 0 (freeDccArgs dccArgs p)

/-- Invariant of the read loop: the capacity variable is the size of the allocation, the
logical length does not exceed it, and it is not zero. -/
def Capture.WF (st : Capture) : Prop :=
  st.stderrOutput.length = st.maxOutputSize ∧ st.outputCount ≤ st.maxOutputSize ∧
    0 < st.maxOutputSize

/-! ## Observations on traces and sample inputs -/

/-- The bytes the `fprintf(stderr, ...)` calls of a trace write, in order. -/
def stderrBytes : List Event → List Char
  | [] => []
  | .fprintfStderr text :: rest => text ++ stderrBytes rest
  | _ :: rest => stderrBytes rest

/-- Is the event the printing of a line that begins with `Deleting ~/`? -/
def Event.isDeletingLine : Event → Bool
  | .printf text => startsWith text "Deleting ~/".toList
  | _ => false

/-- What one visible entry makes the enumeration do: print its line, then sleep. -/
def entryEvents (name : CStr) : List Event :=
  [.printf ("Deleting ~/".toList ++ name ++ "\n".toList), .usleep 200000]

/-- A world in which every call succeeds, `dcc` and `./a.out` exit with status 0, the
child writes nothing to `stderr`, and the home directory holds five entries. -/
def sampleWorld : World :=
  { callocArgs := true, strdup := fun _ => true, dccSpawn := 0, dccWait := some 0,
    pipe := some (3, 4), fprintfOverflow := [],
    fileActionsInit := 0, adddup2 := 0, addcloseRead := 0, addcloseWrite := 0,
    appSpawn := 0, fdopen := true, callocBuffer := true, childStderr := [],
    realloc := fun _ => true, reallocJunk := fun _ => NUL, appWait := some 0,
    sigaction := fun _ => true,
    opendir := fun _ =>
      some [".".toList, "..".toList, "notes".toList, ".bashrc".toList, "a.c".toList],
    mkdtemp := some "Ab3xYz".toList, chdir := fun _ => true, setenv := true,
    shellSpawn := 0 }

/-- A process started from a login shell: `HOME` and `SHELL` set, default dispositions. -/
def sampleProc : Proc :=
  { cwd := "/home/u/work".toList,
    env := [("HOME".toList, "/home/u".toList), ("SHELL".toList, "/bin/sh".toList)],
    sig := fun _ => Disposition.default, trace := [] }

/-- The command line `ccc prog.c`. -/
def sampleArgv : List CStr := ["ccc".toList, "prog.c".toList]

/-- `p1` is `p` after further calls, each of which satisfies `Q`. -/
def Emits (Q : Event → Prop) (p p1 : Proc) : Prop :=
  ∃ evs, p1.trace = p.trace ++ evs ∧ ∀ e ∈ evs, Q e

/-- The calls made while relocating into the temporary directory (`fakeTemp`). -/
def Event.isRelocation : Event → Bool
  | .mkdtemp _ => true
  | .chdir _ => true
  | .setenv _ _ _ => true
  | .posix_spawnp _ _ _ _ => true
  | .waitpid => true
  | _ => false

/-- The sample process started under `nohup`: `SIGHUP` is already ignored. -/
def nohupProc : Proc :=
  { sampleProc with sig := fun s => if s = SIGHUP then Disposition.ignore else Disposition.default }

/-- The sample process with `SHELL` removed from its environment. -/
def noShellProc : Proc :=
  { sampleProc with env := [("HOME".toList, "/home/u".toList)] }

/-- The capacity is `128 * 2 ^ j` for some `j`, and once the buffer has grown more than
half of it is in use. -/
def Capture.Doubled (st : Capture) : Prop :=
  ∃ j, st.maxOutputSize = 128 * 2 ^ j ∧ (j = 0 ∨ 128 * 2 ^ (j - 1) < st.outputCount)



/-- The capacity is `128 * 2 ^ j` with `j ≤ 56`, so it is at most `2 ^ 63`. -/
def Capture.Cap (st : Capture) : Prop :=
  ∃ j, j ≤ 56 ∧ st.maxOutputSize = 128 * 2 ^ j

/-! ## Lemmas on `strstr` and `findError` -/


theorem startsWith_iff (text marker : CStr) :
    startsWith text marker = true ↔ ∃ after, text = marker ++ after := by
  induction marker generalizing text with
  | nil => simp [startsWith]
  | cons m ms ih =>
    cases text with
    | nil => simp [startsWith]
    | cons c cs =>
      simp only [startsWith, Bool.and_eq_true, beq_iff_eq, ih, List.cons_append,
        List.cons.injEq]
      constructor
      · rintro ⟨rfl, after, rfl⟩
        exact ⟨after, rfl, rfl⟩
      · rintro ⟨after, rfl, rfl⟩
        exact ⟨rfl, after, rfl⟩

theorem contains_cons (c : Char) (cs marker : CStr) :
    Contains (c :: cs) marker ↔ (∃ after, c :: cs = marker ++ after) ∨ Contains cs marker := by
  constructor
  · rintro ⟨before, after, h⟩
    cases before with
    | nil => exact Or.inl ⟨after, by simpa using h⟩
    | cons b bs =>
      simp only [List.cons_append, List.cons.injEq] at h
      exact Or.inr ⟨bs, after, h.2⟩
  · rintro (⟨after, h⟩ | ⟨before, after, h⟩)
    · exact ⟨[], after, by simpa using h⟩
    · exact ⟨c :: before, after, by simp [h]⟩

theorem strstr_cons (c : Char) (cs needle : CStr) :
    strstr (c :: cs) needle =
      if startsWith (c :: cs) needle then some 0
      else (strstr cs needle).map (fun i => i + 1) := rfl

theorem strstr_isSome_iff (haystack needle : CStr) :
    (strstr haystack needle).isSome = true ↔ Contains haystack needle := by
  induction haystack with
  | nil =>
    cases needle with
    | nil => simp [strstr, Contains]
    | cons m ms => simp [strstr, Contains]
  | cons c cs ih =>
    rw [contains_cons, ← ih, ← startsWith_iff, strstr_cons]
    by_cases h : startsWith (c :: cs) needle = true
    · simp [h]
    · simp [h]

theorem findError_iff (stderrOutput : List Char) :
    findError stderrOutput = true ↔
      ∃ marker ∈ errorMarkers, Contains (cstring stderrOutput) marker := by
  simp only [findError, Bool.or_eq_true, strstr_isSome_iff, errorMarkers, List.mem_cons,
    List.mem_singleton, exists_eq_or_imp, exists_eq_left, List.not_mem_nil, false_and,
    exists_false, or_false, or_assoc]

/-! ## Lemmas on the capture buffer -/

theorem length_realloc (junk : Nat → Char) (buf : List Char) (size : Nat) :
    (realloc junk buf size).length = size := by
  simp [realloc]

theorem take_realloc (junk : Nat → Char) (buf : List Char) (size k : Nat)
    (hk : k ≤ buf.length) (hs : k ≤ size) :
    (realloc junk buf size).take k = buf.take k := by
  apply List.ext_getElem?
  intro j
  simp only [realloc, List.getElem?_take]
  by_cases hj : j < k
  · have h1 : j < size := by omega
    have h2 : j < buf.length := by omega
    simp [hj, List.getElem?_range h1, List.getElem?_eq_getElem h2]
  · simp [hj]

theorem take_set_self (l : List Char) (i : Nat) (c : Char) :
    (l.set i c).take i = l.take i := by
  apply List.ext_getElem?
  intro j
  rw [List.getElem?_take, List.getElem?_take]
  split
  · rw [List.getElem?_set_ne (by omega)]
  · rfl

theorem take_set_succ (l : List Char) (i : Nat) (c : Char) (hi : i < l.length) :
    (l.set i c).take (i + 1) = l.take i ++ [c] := by
  rw [List.take_succ, take_set_self]
  simp [List.getElem?_set, hi]

theorem wf_initial : Capture.initial.WF := by
  simp [Capture.WF, Capture.initial]

theorem append_spec (reallocOk : Nat → Bool) (junk : Nat → Char) (st st1 : Capture)
    (c : Char) (hwf : st.WF) (hlt : st.outputCount < 2 ^ 63)
    (h : st.append reallocOk junk c = .ok st1) :
    st1.WF ∧ st1.outputCount = st.outputCount + 1 ∧
      st1.stderrOutput.take st1.outputCount = st.stderrOutput.take st.outputCount ++ [c] ∧
      st.maxOutputSize ≤ st1.maxOutputSize := by
  obtain ⟨hlen, hle, hpos⟩ := hwf
  unfold Capture.append at h
  by_cases hfull : st.outputCount ≥ st.maxOutputSize
  · have hmod : st.maxOutputSize * 2 % SIZE_MOD = st.maxOutputSize * 2 := by
      apply Nat.mod_eq_of_lt
      simp only [SIZE_MOD]
      omega
    simp only [hfull, if_true, Capture.grow, hmod] at h
    by_cases hr : reallocOk (st.maxOutputSize * 2) = true
    · simp only [hr, if_true, Capture.store, length_realloc] at h
      have hin : st.outputCount < st.maxOutputSize * 2 := by omega
      simp only [hin, if_true, Except.ok.injEq] at h
      subst h
      refine ⟨⟨?_, ?_, ?_⟩, rfl, ?_, ?_⟩
      · simp [length_realloc]
      · show st.outputCount + 1 ≤ st.maxOutputSize * 2
        omega
      · show 0 < st.maxOutputSize * 2
        omega
      · show ((realloc junk st.stderrOutput (st.maxOutputSize * 2)).set st.outputCount c).take
            (st.outputCount + 1) = _
        rw [take_set_succ _ _ _ (by rw [length_realloc]; exact hin),
          take_realloc _ _ _ _ (by omega) (by omega)]
      · show st.maxOutputSize ≤ st.maxOutputSize * 2
        omega
    · simp [hr] at h
  · have hin : st.outputCount < st.stderrOutput.length := by omega
    simp only [hfull, if_false, Capture.store, hin, if_true, Except.ok.injEq] at h
    subst h
    refine ⟨⟨?_, ?_, hpos⟩, rfl, ?_, Nat.le_refl _⟩
    · simpa using hlen
    · show st.outputCount + 1 ≤ st.maxOutputSize
      omega
    · exact take_set_succ _ _ _ hin

theorem append_total (reallocOk : Nat → Bool) (junk : Nat → Char) (st : Capture)
    (c : Char) (hwf : st.WF) (hlt : st.outputCount < 2 ^ 63)
    (hok : ∀ size, reallocOk size = true) :
    ∃ st1, st.append reallocOk junk c = .ok st1 := by
  obtain ⟨hlen, hle, hpos⟩ := hwf
  unfold Capture.append
  by_cases hfull : st.outputCount ≥ st.maxOutputSize
  · have hmod : st.maxOutputSize * 2 % SIZE_MOD = st.maxOutputSize * 2 := by
      apply Nat.mod_eq_of_lt
      simp only [SIZE_MOD]
      omega
    have hin : st.outputCount < st.maxOutputSize * 2 := by omega
    simp [hfull, Capture.grow, hmod, hok, Capture.store, length_realloc, hin]
  · have hin : st.outputCount < st.stderrOutput.length := by omega
    simp [hfull, Capture.store, hin]

theorem readLoop_spec (reallocOk : Nat → Bool) (junk : Nat → Char) (stream : List Char) :
    ∀ st st1 : Capture, st.WF → st.outputCount + stream.length ≤ 2 ^ 63 →
      readLoop reallocOk junk stream st = .ok st1 →
      st1.WF ∧ st1.outputCount = st.outputCount + stream.length ∧
        st1.stderrOutput.take st1.outputCount =
          st.stderrOutput.take st.outputCount ++ stream ∧
        st.maxOutputSize ≤ st1.maxOutputSize := by
  induction stream with
  | nil =>
    intro st st1 hwf _ h
    simp only [readLoop, Except.ok.injEq] at h
    subst h
    simp [hwf]
  | cons c rest ih =>
    intro st st1 hwf hlen h
    simp only [List.length_cons] at hlen
    simp only [readLoop] at h
    cases hs : st.append reallocOk junk c with
    | error e => simp [hs] at h
    | ok st2 =>
      simp only [hs] at h
      obtain ⟨hwf2, hc2, ht2, hm2⟩ := append_spec reallocOk junk st st2 c hwf (by omega) hs
      obtain ⟨hwf1, hc1, ht1, hm1⟩ := ih st2 st1 hwf2 (by omega) h
      refine ⟨hwf1, by simp only [List.length_cons]; omega, ?_, Nat.le_trans hm2 hm1⟩
      rw [ht1, ht2]
      simp

theorem readLoop_total (reallocOk : Nat → Bool) (junk : Nat → Char) (stream : List Char)
    (hok : ∀ size, reallocOk size = true) :
    ∀ st : Capture, st.WF → st.outputCount + stream.length ≤ 2 ^ 63 →
      ∃ st1, readLoop reallocOk junk stream st = .ok st1 := by
  induction stream with
  | nil => intro st _ _; exact ⟨st, rfl⟩
  | cons c rest ih =>
    intro st hwf hlen
    simp only [List.length_cons] at hlen
    obtain ⟨st2, hs⟩ := append_total reallocOk junk st c hwf (by omega) hok
    obtain ⟨hwf2, hc2, _⟩ := append_spec reallocOk junk st st2 c hwf (by omega) hs
    obtain ⟨st1, h1⟩ := ih st2 hwf2 (by omega)
    exact ⟨st1, by simp only [readLoop, hs, h1]⟩

theorem append_fits (reallocOk : Nat → Bool) (junk : Nat → Char) (st : Capture) (c : Char)
    (hwf : st.WF) (hlt : st.outputCount < st.maxOutputSize) :
    ∃ st1, st.append reallocOk junk c = .ok st1 ∧ st1.WF ∧
      st1.maxOutputSize = st.maxOutputSize ∧ st1.outputCount = st.outputCount + 1 := by
  have hfull : ¬ st.outputCount ≥ st.maxOutputSize := by omega
  have hin : st.outputCount < st.stderrOutput.length := by rw [hwf.1]; omega
  refine ⟨Capture.mk (st.stderrOutput.set st.outputCount c) st.maxOutputSize
    (st.outputCount + 1),
    by simp only [Capture.append, hfull, if_false, Capture.store, hin, if_true],
    ⟨?_, ?_, hwf.2.2⟩, rfl, rfl⟩
  · simpa using hwf.1
  · show st.outputCount + 1 ≤ st.maxOutputSize
    omega

/-- While the stream still fits the loop neither grows nor fails. -/
theorem readLoop_fits (reallocOk : Nat → Bool) (junk : Nat → Char) (stream : List Char) :
    ∀ st : Capture, st.WF → st.outputCount + stream.length ≤ st.maxOutputSize →
      ∃ st1, readLoop reallocOk junk stream st = .ok st1 ∧
        st1.maxOutputSize = st.maxOutputSize ∧
        st1.outputCount = st.outputCount + stream.length ∧
        st1.stderrOutput.length = st.maxOutputSize := by
  induction stream with
  | nil => intro st hwf _; exact ⟨st, rfl, rfl, rfl, hwf.1⟩
  | cons c rest ih =>
    intro st hwf hlen
    simp only [List.length_cons] at hlen
    obtain ⟨st2, hs, hwf2, hm2, hc2⟩ := append_fits reallocOk junk st c hwf (by omega)
    obtain ⟨st1, h1, h2, h3, h4⟩ := ih st2 hwf2 (by omega)
    refine ⟨st1, by simp only [readLoop, hs, h1], by omega, ?_, by omega⟩
    simp only [List.length_cons]
    omega

theorem readLoop_append (reallocOk : Nat → Bool) (junk : Nat → Char) (pre post : List Char) :
    ∀ st st1 : Capture, readLoop reallocOk junk (pre ++ post) st = .ok st1 →
      ∃ mid, readLoop reallocOk junk pre st = .ok mid ∧
        readLoop reallocOk junk post mid = .ok st1 := by
  induction pre with
  | nil => intro st st1 h; exact ⟨st, rfl, by simpa using h⟩
  | cons c rest ih =>
    intro st st1 h
    simp only [List.cons_append, readLoop] at h ⊢
    cases hs : st.append reallocOk junk c with
    | error e => simp [hs] at h
    | ok st2 =>
      simp only [hs] at h ⊢
      exact ih st2 st1 h

theorem append_capacity (reallocOk : Nat → Bool) (junk : Nat → Char) (st st1 : Capture)
    (c : Char) (hwf : st.WF) (hlt : st.outputCount < 2 ^ 63)
    (h : st.append reallocOk junk c = .ok st1) :
    st1.maxOutputSize =
      if st.outputCount ≥ st.maxOutputSize then st.maxOutputSize * 2 else st.maxOutputSize := by
  obtain ⟨hlen, hle, hpos⟩ := hwf
  unfold Capture.append at h
  by_cases hfull : st.outputCount ≥ st.maxOutputSize
  · have hmod : st.maxOutputSize * 2 % SIZE_MOD = st.maxOutputSize * 2 := by
      apply Nat.mod_eq_of_lt
      simp only [SIZE_MOD]
      omega
    simp only [hfull, if_true, Capture.grow, hmod] at h ⊢
    by_cases hr : reallocOk (st.maxOutputSize * 2) = true
    · simp only [hr, if_true, Capture.store, length_realloc] at h
      have hin : st.outputCount < st.maxOutputSize * 2 := by omega
      simp only [hin, if_true, Except.ok.injEq] at h
      subst h
      rfl
    · simp [hr] at h
  · have hin : st.outputCount < st.stderrOutput.length := by omega
    simp only [hfull, if_false, Capture.store, hin, if_true, Except.ok.injEq] at h ⊢
    subst h
    rfl

theorem append_doubled (reallocOk : Nat → Bool) (junk : Nat → Char) (st st1 : Capture)
    (c : Char) (hwf : st.WF) (hd : st.Doubled) (hlt : st.outputCount < 2 ^ 63)
    (h : st.append reallocOk junk c = .ok st1) : st1.Doubled := by
  have hcap := append_capacity reallocOk junk st st1 c hwf hlt h
  obtain ⟨_, hc, _, _⟩ := append_spec reallocOk junk st st1 c hwf hlt h
  obtain ⟨j, hj, hhalf⟩ := hd
  by_cases hfull : st.outputCount ≥ st.maxOutputSize
  · rw [if_pos hfull] at hcap
    refine ⟨j + 1, ?_, Or.inr ?_⟩
    · rw [hcap, hj, Nat.pow_succ]
      omega
    · show 128 * 2 ^ j < st1.outputCount
      omega
  · rw [if_neg hfull] at hcap
    refine ⟨j, by rw [hcap, hj], ?_⟩
    rcases hhalf with h0 | hh
    · exact Or.inl h0
    · exact Or.inr (by omega)

theorem readLoop_doubled (reallocOk : Nat → Bool) (junk : Nat → Char) (stream : List Char) :
    ∀ st st1 : Capture, st.WF → st.Doubled → st.outputCount + stream.length ≤ 2 ^ 63 →
      readLoop reallocOk junk stream st = .ok st1 → st1.Doubled := by
  induction stream with
  | nil =>
    intro st st1 _ hd _ h
    simp only [readLoop, Except.ok.injEq] at h
    subst h
    exact hd
  | cons c rest ih =>
    intro st st1 hwf hd hlen h
    simp only [List.length_cons] at hlen
    simp only [readLoop] at h
    cases hs : st.append reallocOk junk c with
    | error e => simp [hs] at h
    | ok st2 =>
      simp only [hs] at h
      obtain ⟨hwf2, hc2, _, _⟩ := append_spec reallocOk junk st st2 c hwf (by omega) hs
      exact ih st2 st1 hwf2 (append_doubled reallocOk junk st st2 c hwf hd (by omega) hs)
        (by omega) h

theorem cap_le (st : Capture) (h : st.Cap) : st.maxOutputSize ≤ 2 ^ 63 := by
  obtain ⟨j, hj, hm⟩ := h
  have h1 : 2 ^ j ≤ 2 ^ 56 := Nat.pow_le_pow_right (by decide) hj
  have h2 : (2 : Nat) ^ 63 = 128 * 2 ^ 56 := by decide
  omega

/-- When the buffer is full at `2 ^ 63` bytes the doubled capacity wraps to 0, and the
iteration cannot complete: an iteration that completes started below `2 ^ 63`. -/
theorem append_ok_lt (reallocOk : Nat → Bool) (junk : Nat → Char) (st st1 : Capture)
    (c : Char) (hwf : st.WF) (hcap : st.Cap)
    (h : st.append reallocOk junk c = .ok st1) : st.outputCount < 2 ^ 63 := by
  by_contra hcon
  have hle := cap_le st hcap
  obtain ⟨hlen, hcm, hpos⟩ := hwf
  have hc : st.outputCount = 2 ^ 63 := by omega
  have hm : st.maxOutputSize = 2 ^ 63 := by omega
  have hfull : st.outputCount ≥ st.maxOutputSize := by omega
  have hmod : st.maxOutputSize * 2 % SIZE_MOD = 0 := by
    rw [hm]
    decide
  unfold Capture.append at h
  simp only [hfull, if_true, Capture.grow, hmod] at h
  by_cases hr : reallocOk 0 = true
  · simp [hr, Capture.store, length_realloc] at h
  · simp [hr] at h

theorem append_cap (reallocOk : Nat → Bool) (junk : Nat → Char) (st st1 : Capture)
    (c : Char) (hwf : st.WF) (hcap : st.Cap)
    (h : st.append reallocOk junk c = .ok st1) : st1.Cap := by
  have hlt := append_ok_lt reallocOk junk st st1 c hwf hcap h
  have hm := append_capacity reallocOk junk st st1 c hwf hlt h
  obtain ⟨j, hj, hmj⟩ := hcap
  by_cases hfull : st.outputCount ≥ st.maxOutputSize
  · rw [if_pos hfull] at hm
    have hjlt : j < 56 := by
      by_contra hcon
      have hj56 : j = 56 := by omega
      subst hj56
      have h2 : (2 : Nat) ^ 63 = 128 * 2 ^ 56 := by decide
      omega
    refine ⟨j + 1, by omega, ?_⟩
    rw [hm, hmj, Nat.pow_succ]
    omega
  · rw [if_neg hfull] at hm
    exact ⟨j, hj, by rw [hm, hmj]⟩

/-- The read loop without a bound on the stream: whenever it reaches end-of-stream the
buffer holds the stream. -/
theorem readLoop_spec_of_ok (reallocOk : Nat → Bool) (junk : Nat → Char)
    (stream : List Char) :
    ∀ st st1 : Capture, st.WF → st.Cap → readLoop reallocOk junk stream st = .ok st1 →
      st1.WF ∧ st1.Cap ∧ st1.outputCount = st.outputCount + stream.length ∧
        st1.stderrOutput.take st1.outputCount =
          st.stderrOutput.take st.outputCount ++ stream ∧
        st.maxOutputSize ≤ st1.maxOutputSize := by
  induction stream with
  | nil =>
    intro st st1 hwf hcap h
    simp only [readLoop, Except.ok.injEq] at h
    subst h
    simp [hwf, hcap]
  | cons c rest ih =>
    intro st st1 hwf hcap h
    simp only [readLoop] at h
    cases hs : st.append reallocOk junk c with
    | error e => simp [hs] at h
    | ok st2 =>
      simp only [hs] at h
      have hlt := append_ok_lt reallocOk junk st st2 c hwf hcap hs
      obtain ⟨hwf2, hc2, ht2, hm2⟩ := append_spec reallocOk junk st st2 c hwf hlt hs
      have hcap2 := append_cap reallocOk junk st st2 c hwf hcap hs
      obtain ⟨hwf1, hcap1, hc1, ht1, hm1⟩ := ih st2 st1 hwf2 hcap2 h
      refine ⟨hwf1, hcap1, by simp only [List.length_cons]; omega, ?_, Nat.le_trans hm2 hm1⟩
      rw [ht1, ht2]
      simp

theorem cap_initial : Capture.initial.Cap := ⟨0, by decide, rfl⟩

/-- A stream whose length is 128 times a power of two fills the buffer exactly, and the
terminator store falls outside it. -/
theorem capture_overflows (reallocOk : Nat → Bool) (junk : Nat → Char) (stream : List Char)
    (k : Nat) (hok : ∀ size, reallocOk size = true) (hk : 128 * 2 ^ k ≤ 2 ^ 63)
    (hlen : stream.length = 128 * 2 ^ k) :
    capture reallocOk junk stream = .error (.outOfBounds (128 * 2 ^ k) (128 * 2 ^ k)) := by
  have h0 : Capture.initial.outputCount + stream.length ≤ 2 ^ 63 := by
    show 0 + stream.length ≤ 2 ^ 63
    omega
  obtain ⟨st, hst⟩ := readLoop_total reallocOk junk stream hok _ wf_initial h0
  obtain ⟨hwf, hc, _, _⟩ := readLoop_spec reallocOk junk stream _ st wf_initial h0 hst
  have hinit : Capture.initial.Doubled := ⟨0, rfl, Or.inl rfl⟩
  obtain ⟨j, hj, hhalf⟩ := readLoop_doubled reallocOk junk stream _ st wf_initial hinit h0 hst
  have hc1 : st.outputCount = 128 * 2 ^ k := by
    have : st.outputCount = 0 + stream.length := hc
    omega
  have hkpos : 0 < 2 ^ k := Nat.pow_pos (by decide)
  have hmax : st.maxOutputSize = 128 * 2 ^ k := by
    have hle : st.outputCount ≤ st.maxOutputSize := hwf.2.1
    rcases hhalf with h0' | hh
    · subst h0'
      simp only [Nat.pow_zero, Nat.mul_one] at hj
      omega
    · have hjk : j ≤ k := by
        by_contra hcon
        have hkj : k ≤ j - 1 := by omega
        have := Nat.pow_le_pow_right (by decide : 0 < 2) hkj
        omega
      have := Nat.pow_le_pow_right (by decide : 0 < 2) hjk
      omega
  have hl : st.stderrOutput.length = 128 * 2 ^ k := by rw [hwf.1, hmax]
  simp only [capture, hst, Capture.terminate, Capture.store, hc1, hl, Nat.lt_irrefl, if_false]

/-! ## Lemmas on `constructDccArgs` -/

theorem foldl_set_getElem? (f : Nat → Option CStr) :
    ∀ (n start : Nat) (args : List (Option CStr)) (j : Nat),
      ((List.range' start n).foldl (fun args i => args.set i (f i)) args)[j]? =
        if start ≤ j ∧ j < start + n ∧ j < args.length then some (f j) else args[j]? := by
  intro n
  induction n with
  | zero =>
    intro start args j
    have : ¬ (start ≤ j ∧ j < start + 0 ∧ j < args.length) := by omega
    rw [if_neg this]
    rfl
  | succ n ih =>
    intro start args j
    rw [List.range'_succ, List.foldl_cons, ih, List.length_set, List.getElem?_set]
    by_cases h1 : start = j
    · subst h1
      by_cases h2 : start < args.length
      · have ha : ¬ (start + 1 ≤ start ∧ start < start + 1 + n ∧ start < args.length) := by omega
        have hb : start ≤ start ∧ start < start + (n + 1) ∧ start < args.length := by omega
        simp [ha, hb, h2]
      · have ha : ¬ (start + 1 ≤ start ∧ start < start + 1 + n ∧ start < args.length) := by omega
        have hb : ¬ (start ≤ start ∧ start < start + (n + 1) ∧ start < args.length) := by omega
        simp [ha, hb, h2]
        omega
    · by_cases h3 : start + 1 ≤ j ∧ j < start + 1 + n ∧ j < args.length
      · have hb : start ≤ j ∧ j < start + (n + 1) ∧ j < args.length := by omega
        simp [h3, hb]
      · have hb : ¬ (start ≤ j ∧ j < start + (n + 1) ∧ j < args.length) := by omega
        simp [h3, hb, h1]

theorem foldl_set_length (f : Nat → Option CStr) :
    ∀ (n start : Nat) (args : List (Option CStr)),
      ((List.range' start n).foldl (fun args i => args.set i (f i)) args).length =
        args.length := by
  intro n
  induction n with
  | zero => intro start args; rfl
  | succ n ih =>
    intro start args
    rw [List.range'_succ, List.foldl_cons, ih, List.length_set]

/-- The vector built by `constructDccArgs`, slot by slot, whatever the `strdup` calls
return. -/
theorem constructDccArgs_slots (w : World) (argc : Nat) (argv : List CStr) (p : Proc)
    (hargc : 2 ≤ argc) (hcalloc : w.callocArgs = true) :
    ∃ dccArgs, constructDccArgs w argc argv p = .ok dccArgs p ∧
      dccArgs.length = argc + 3 ∧ dccArgs.args.length = argc + 3 ∧
      dccArgs.args[0]? = some (strdup (w.strdup 0) (some "dcc".toList)) ∧
      dccArgs.args[1]? = some (strdup (w.strdup 1) (some "-o".toList)) ∧
      dccArgs.args[2]? = some (strdup (w.strdup 2) (some "a.out".toList)) ∧
      (∀ j, 3 ≤ j → j < argc + 2 →
        dccArgs.args[j]? = some (strdup (w.strdup j) argv[j - 2]?)) ∧
      dccArgs.args[argc + 2]? = some none := by
  simp only [constructDccArgs, hcalloc, Bool.not_true, Bool.false_eq_true, if_false,
    EXTRA_ARGS, COMPILED_APP_NAME]
  refine ⟨_, rfl, rfl, ?_, ?_, ?_, ?_, ?_, ?_⟩
  · simp only [List.length_set, foldl_set_length (fun i => strdup (w.strdup i) argv[i - 2]?),
      List.length_replicate]
  · have h1 : ¬ (argc + 2 + 1 - 1 = 0) := by omega
    have h2 : ¬ (2 + 1 ≤ 0 ∧ 0 < 2 + 1 + (2 + argc - (2 + 1)) ∧ 0 < argc + 2 + 1) := by omega
    rw [List.getElem?_set, if_neg h1, foldl_set_getElem? (fun i => strdup (w.strdup i) argv[i - 2]?)]
    simp only [List.length_set, List.length_replicate, if_neg h2]
    simp [List.getElem?_set]
  · have h1 : ¬ (argc + 2 + 1 - 1 = 1) := by omega
    have h2 : ¬ (2 + 1 ≤ 1 ∧ 1 < 2 + 1 + (2 + argc - (2 + 1)) ∧ 1 < argc + 2 + 1) := by omega
    rw [List.getElem?_set, if_neg h1, foldl_set_getElem? (fun i => strdup (w.strdup i) argv[i - 2]?)]
    simp only [List.length_set, List.length_replicate, if_neg h2]
    simp [List.getElem?_set]
  · have h1 : ¬ (argc + 2 + 1 - 1 = 2) := by omega
    have h2 : ¬ (2 + 1 ≤ 2 ∧ 2 < 2 + 1 + (2 + argc - (2 + 1)) ∧ 2 < argc + 2 + 1) := by omega
    rw [List.getElem?_set, if_neg h1, foldl_set_getElem? (fun i => strdup (w.strdup i) argv[i - 2]?)]
    simp only [List.length_set, List.length_replicate, if_neg h2]
    simp [List.getElem?_set]
  · intro j h3 hj
    have h1 : ¬ (argc + 2 + 1 - 1 = j) := by omega
    have h2 : 2 + 1 ≤ j ∧ j < 2 + 1 + (2 + argc - (2 + 1)) ∧ j < argc + 2 + 1 := by omega
    rw [List.getElem?_set, if_neg h1, foldl_set_getElem? (fun i => strdup (w.strdup i) argv[i - 2]?)]
    simp only [List.length_set, List.length_replicate, if_pos h2]
  · have h1 : argc + 2 + 1 - 1 = argc + 2 := by omega
    rw [h1, List.getElem?_set]
    simp [foldl_set_length (fun i => strdup (w.strdup i) argv[i - 2]?)]

/-- When every copy is made the vector is `dcc`, `-o`, `a.out`, the user arguments and
the sentinel. -/
theorem constructDccArgs_eq (w : World) (argc : Nat) (argv : List CStr) (p : Proc)
    (hargc : 2 ≤ argc) (hargv : argv.length = argc) (hcalloc : w.callocArgs = true)
    (hdup : ∀ i, i < argc + 2 → w.strdup i = true) :
    ∃ dccArgs, constructDccArgs w argc argv p = .ok dccArgs p ∧ dccArgs.length = argc + 3 ∧
      dccArgs.args = [some "dcc".toList, some "-o".toList, some "a.out".toList] ++
        (argv.drop 1).map some ++ [none] := by
  obtain ⟨dccArgs, h, hl, hal, h0, h1, h2, hj, hlast⟩ :=
    constructDccArgs_slots w argc argv p hargc hcalloc
  refine ⟨dccArgs, h, hl, ?_⟩
  apply List.ext_getElem?
  intro j
  rcases j with _ | _ | _ | k
  · rw [h0, hdup 0 (by omega)]
    rfl
  · rw [h1, hdup 1 (by omega)]
    rfl
  · rw [h2, hdup 2 (by omega)]
    simp [strdup]
  · simp only [List.cons_append, List.nil_append, List.getElem?_cons_succ]
    by_cases hk : k + 1 < argv.length
    · have h3 : k < (List.map some (List.drop 1 argv)).length := by
        simp only [List.length_map, List.length_drop]
        omega
      rw [hj (k + 1 + 1 + 1) (by omega) (by omega), hdup _ (by omega),
        List.getElem?_append_left h3, List.getElem?_map, List.getElem?_drop]
      have h4 : k + 1 + 1 + 1 - 2 = 1 + k := by omega
      rw [h4, List.getElem?_eq_getElem (by omega : 1 + k < argv.length)]
      rfl
    · have h3 : (List.map some (List.drop 1 argv)).length ≤ k := by
        simp only [List.length_map, List.length_drop]
        omega
      have h5 : (List.map some (List.drop 1 argv)).length = argc - 1 := by
        simp only [List.length_map, List.length_drop]
        omega
      rw [List.getElem?_append_right h3, h5]
      by_cases hk2 : k + 1 = argc
      · have e1 : k + 1 + 1 + 1 = argc + 2 := by omega
        have h6 : k - (argc - 1) = 0 := by omega
        rw [e1, hlast, h6]
        rfl
      · have h6 : k - (argc - 1) = (k - argc) + 1 := by omega
        have h8 : dccArgs.args.length ≤ k + 1 + 1 + 1 := by omega
        rw [List.getElem?_eq_none h8, h6]
        rfl

/-- A failed `strdup` leaves NULL in the slot it was meant to fill. -/
theorem constructDccArgs_null_slot (w : World) (argc : Nat) (argv : List CStr) (p : Proc)
    (i : Nat) (hargc : 2 ≤ argc) (hcalloc : w.callocArgs = true) (hi : i < argc + 2)
    (hfail : w.strdup i = false) :
    ∃ dccArgs, constructDccArgs w argc argv p = .ok dccArgs p ∧
      dccArgs.args[i]? = some none := by
  obtain ⟨dccArgs, h, _, _, h0, h1, h2, hj, _⟩ :=
    constructDccArgs_slots w argc argv p hargc hcalloc
  refine ⟨dccArgs, h, ?_⟩
  rcases i with _ | _ | _ | k
  · rw [h0, hfail]; rfl
  · rw [h1, hfail]; rfl
  · rw [h2, hfail]; rfl
  · rw [hj _ (by omega) hi, hfail]; rfl

/-- When `dcc`'s name is copied, slot 0 holds it. -/
theorem constructDccArgs_head (w : World) (argc : Nat) (argv : List CStr) (p : Proc)
    (hargc : 2 ≤ argc) (hcalloc : w.callocArgs = true) (hdup : w.strdup 0 = true) :
    ∃ dccArgs, constructDccArgs w argc argv p = .ok dccArgs p ∧
      dccArgs.args.getD 0 none = some "dcc".toList := by
  obtain ⟨dccArgs, h, _, _, h0, _⟩ := constructDccArgs_slots w argc argv p hargc hcalloc
  refine ⟨dccArgs, h, ?_⟩
  rw [List.getD_eq_getElem?_getD, h0, hdup]
  rfl

/-! ## Lemmas on the effectful functions -/

theorem trace_emit (p : Proc) (e : Event) : (p.emit e).trace = p.trace ++ [e] := rfl

theorem ignoreSignalsFrom_ok (w : World) :
    ∀ (l : List Nat) (p p1 : Proc), ignoreSignalsFrom w l p = .ok () p1 →
      p1.cwd = p.cwd ∧ p1.env = p.env ∧
      (∀ s, (s ∈ l ∧ s ≠ SIGKILL ∧ s ≠ SIGSTOP ∧ s ≠ SIGHUP → p1.sig s = .ignore) ∧
            (¬ (s ∈ l ∧ s ≠ SIGKILL ∧ s ≠ SIGSTOP ∧ s ≠ SIGHUP) → p1.sig s = p.sig s)) := by
  intro l
  induction l with
  | nil =>
    intro p p1 h
    simp only [ignoreSignalsFrom, Res.ok.injEq, true_and] at h
    subst h
    simp
  | cons signal rest ih =>
    intro p p1 h
    simp only [ignoreSignalsFrom, Bool.or_eq_true, beq_iff_eq] at h
    by_cases hex : (signal = SIGKILL ∨ signal = SIGSTOP) ∨ signal = SIGHUP
    · rw [if_pos hex] at h
      obtain ⟨h1, h2, h3⟩ := ih p p1 h
      refine ⟨h1, h2, fun s => ⟨fun hs => (h3 s).1 ?_, fun hs => (h3 s).2 ?_⟩⟩
      · obtain ⟨hmem, ha, hb, hc⟩ := hs
        rcases List.mem_cons.mp hmem with rfl | hmem
        · exact absurd hex (by tauto)
        · exact ⟨hmem, ha, hb, hc⟩
      · intro hs'
        exact hs ⟨List.mem_cons_of_mem _ hs'.1, hs'.2⟩
    · rw [if_neg hex] at h
      by_cases hok : w.sigaction signal = true
      · rw [if_pos hok] at h
        obtain ⟨h1, h2, h3⟩ := ih _ p1 h
        refine ⟨h1, h2, fun s => ⟨fun hs => ?_, fun hs => ?_⟩⟩
        · obtain ⟨hmem, ha, hb, hc⟩ := hs
          by_cases hin : s ∈ rest
          · exact (h3 s).1 ⟨hin, ha, hb, hc⟩
          · rcases List.mem_cons.mp hmem with rfl | hmem
            · rw [(h3 s).2 (fun hh => hin hh.1)]
              simp
            · exact absurd hmem hin
        · have hne : s ≠ signal := by
            rintro rfl
            exact hs ⟨List.mem_cons_self _ _, by tauto, by tauto, by tauto⟩
          rw [(h3 s).2 (fun hh => hs ⟨List.mem_cons_of_mem _ hh.1, hh.2⟩)]
          simp [hne, Proc.emit]
      · rw [if_neg hok] at h
        cases h

theorem ignoreSignalsFrom_total (w : World) :
    ∀ (l : List Nat) (p : Proc),
      (∀ s ∈ l, s ≠ SIGKILL → s ≠ SIGSTOP → s ≠ SIGHUP → w.sigaction s = true) →
      ∃ p1, ignoreSignalsFrom w l p = .ok () p1 := by
  intro l
  induction l with
  | nil => intro p _; exact ⟨p, rfl⟩
  | cons signal rest ih =>
    intro p hall
    simp only [ignoreSignalsFrom, Bool.or_eq_true, beq_iff_eq]
    by_cases hex : (signal = SIGKILL ∨ signal = SIGSTOP) ∨ signal = SIGHUP
    · rw [if_pos hex]
      exact ih p (fun s hs => hall s (List.mem_cons_of_mem _ hs))
    · rw [if_neg hex]
      have hok : w.sigaction signal = true :=
        hall signal (List.mem_cons_self _ _) (by tauto) (by tauto) (by tauto)
      rw [if_pos hok]
      exact ih _ (fun s hs => hall s (List.mem_cons_of_mem _ hs))

theorem ignoreSignalsFrom_fatal (w : World) :
    ∀ (l : List Nat) (p : Proc),
      (∃ s ∈ l, s ≠ SIGKILL ∧ s ≠ SIGSTOP ∧ s ≠ SIGHUP ∧ w.sigaction s = false) →
      ∃ message p1, ignoreSignalsFrom w l p = .fatal EXIT_FAILURE message p1 := by
  intro l
  induction l with
  | nil => intro p h; obtain ⟨s, hs, _⟩ := h; cases hs
  | cons signal rest ih =>
    intro p hbad
    simp only [ignoreSignalsFrom, Bool.or_eq_true, beq_iff_eq]
    by_cases hex : (signal = SIGKILL ∨ signal = SIGSTOP) ∨ signal = SIGHUP
    · rw [if_pos hex]
      apply ih
      obtain ⟨s, hs, ha, hb, hc, hd⟩ := hbad
      rcases List.mem_cons.mp hs with rfl | hs
      · exact absurd hex (by tauto)
      · exact ⟨s, hs, ha, hb, hc, hd⟩
    · rw [if_neg hex]
      by_cases hok : w.sigaction signal = true
      · rw [if_pos hok]
        apply ih
        obtain ⟨s, hs, ha, hb, hc, hd⟩ := hbad
        rcases List.mem_cons.mp hs with rfl | hs
        · rw [hok] at hd; cases hd
        · exact ⟨s, hs, ha, hb, hc, hd⟩
      · rw [if_neg hok]
        exact ⟨_, _, rfl⟩

theorem mem_range_signals (s : Nat) : s ∈ List.range' 1 31 ↔ 1 ≤ s ∧ s ≤ 31 := by
  rw [List.mem_range'_1]
  omega

theorem ignoreSignalsFrom_trace (w : World) :
    ∀ (l : List Nat) (p p1 : Proc), ignoreSignalsFrom w l p = .ok () p1 →
      p1.trace = p.trace ++
        (l.filter (fun s => !(s == SIGKILL || s == SIGSTOP || s == SIGHUP))).map
          Event.sigaction := by
  intro l
  induction l with
  | nil =>
    intro p p1 h
    simp only [ignoreSignalsFrom, Res.ok.injEq, true_and] at h
    subst h
    simp
  | cons signal rest ih =>
    intro p p1 h
    simp only [ignoreSignalsFrom] at h
    by_cases hex : (signal == SIGKILL || signal == SIGSTOP || signal == SIGHUP) = true
    · rw [if_pos hex] at h
      rw [ih p p1 h, List.filter_cons_of_neg (by simp [hex])]
    · rw [if_neg hex] at h
      by_cases hok : w.sigaction signal = true
      · rw [if_pos hok] at h
        rw [ih _ p1 h, List.filter_cons_of_pos (by simpa using hex)]
        simp [Proc.emit]
      · rw [if_neg hok] at h
        cases h

theorem Emits.refl (Q : Event → Prop) (p : Proc) : Emits Q p p :=
  ⟨[], by simp, by simp⟩

theorem Emits.of_trace_eq (Q : Event → Prop) (p p1 : Proc) (h : p1.trace = p.trace) :
    Emits Q p p1 :=
  ⟨[], by simp [h], by simp⟩

theorem Emits.trans {Q : Event → Prop} {p p1 p2 : Proc} (h1 : Emits Q p p1)
    (h2 : Emits Q p1 p2) : Emits Q p p2 := by
  obtain ⟨e1, ht1, hq1⟩ := h1
  obtain ⟨e2, ht2, hq2⟩ := h2
  refine ⟨e1 ++ e2, by rw [ht2, ht1, List.append_assoc], ?_⟩
  intro e he
  rcases List.mem_append.mp he with h | h
  · exact hq1 e h
  · exact hq2 e h

theorem Emits.emit {Q : Event → Prop} (p : Proc) (e : Event) (h : Q e) :
    Emits Q p (p.emit e) :=
  ⟨[e], rfl, by simpa using h⟩

theorem Emits.mono {Q R : Event → Prop} {p p1 : Proc} (h : Emits Q p p1)
    (hQR : ∀ e, Q e → R e) : Emits R p p1 := by
  obtain ⟨evs, ht, hq⟩ := h
  exact ⟨evs, ht, fun e he => hQR e (hq e he)⟩

theorem ignoreSignalsFrom_emits (w : World) :
    ∀ (l : List Nat) (p : Proc),
      Emits (fun e => ∃ s, e = .sigaction s) p (ignoreSignalsFrom w l p).proc := by
  intro l
  induction l with
  | nil => intro p; exact Emits.refl _ _
  | cons signal rest ih =>
    intro p
    simp only [ignoreSignalsFrom]
    split
    · exact ih p
    · split
      · exact (Emits.emit p (.sigaction signal) ⟨signal, rfl⟩).trans
          ((Emits.of_trace_eq _ _ _ rfl).trans (ih _))
      · exact Emits.emit p (.sigaction signal) ⟨signal, rfl⟩

theorem headD_eq_dot (name : CStr) : (name.headD NUL == '.') = (name.head? == some '.') := by
  cases name with
  | nil => decide
  | cons c cs => simp

theorem listEntries_eq :
    ∀ (entries : List CStr) (p : Proc),
      listEntries entries p =
        { p with trace := p.trace ++
            (entries.filter (fun name => !(name.head? == some '.'))).flatMap entryEvents } := by
  intro entries
  induction entries with
  | nil => intro p; simp [listEntries]
  | cons d_name rest ih =>
    intro p
    simp only [listEntries, headD_eq_dot]
    by_cases h : (d_name.head? == some '.') = true
    · rw [if_pos h, ih, List.filter_cons_of_neg (by simp [h])]
    · rw [if_neg h, ih, List.filter_cons_of_pos (by simpa using h)]
      simp [Proc.emit, entryEvents]

theorem getenv_setenvList_self (env : List (CStr × CStr)) (name value : CStr) :
    getenv (setenvList env name value) name = some value := by
  induction env with
  | nil => simp [getenv, setenvList]
  | cons b rest ih =>
    unfold getenv at ih ⊢
    by_cases hb : b.1 = name
    · simp [setenvList, hb]
    · simp only [setenvList, beq_iff_eq, hb, if_false]
      rw [List.find?_cons_of_neg _ (by simpa using hb)]
      exact ih

theorem getenv_setenvList_ne (env : List (CStr × CStr)) (name value other : CStr)
    (h : other ≠ name) :
    getenv (setenvList env name value) other = getenv env other := by
  have hne : ¬ name = other := fun hh => h hh.symm
  induction env with
  | nil =>
    unfold getenv
    simp only [setenvList]
    rw [List.find?_cons_of_neg _ (by simpa using hne)]
  | cons b rest ih =>
    unfold getenv at ih ⊢
    by_cases hb : b.1 = name
    · have hbo : ¬ b.1 = other := by rw [hb]; exact hne
      simp only [setenvList, beq_iff_eq, hb, if_true]
      rw [List.find?_cons_of_neg _ (by simpa using hne),
        List.find?_cons_of_neg _ (by simpa using hbo)]
    · simp only [setenvList, beq_iff_eq, hb, if_false]
      by_cases hbo : b.1 = other
      · rw [List.find?_cons_of_pos _ (by simpa using hbo),
          List.find?_cons_of_pos _ (by simpa using hbo)]
      · rw [List.find?_cons_of_neg _ (by simpa using hbo),
          List.find?_cons_of_neg _ (by simpa using hbo)]
        exact ih

/-- The value of `fakeTemp` once `mkdtemp`, `chdir` and `setenv` have succeeded. -/
theorem fakeTemp_of_relocated (w : World) (p : Proc) (suffix : CStr)
    (hmk : w.mkdtemp = some suffix) (hcd : w.chdir ("/tmp/tmp.".toList ++ suffix) = true)
    (hset : w.setenv = true) :
    fakeTemp w p =
      match getenv p.env "SHELL".toList with
      | none =>
        .undefined
          { cwd := "/tmp/tmp.".toList ++ suffix,
            env := setenvList p.env "HOME".toList ("/tmp/tmp.".toList ++ suffix),
            sig := p.sig,
            trace := p.trace ++
              [.mkdtemp (some ("/tmp/tmp.".toList ++ suffix)),
               .chdir ("/tmp/tmp.".toList ++ suffix),
               .setenv "HOME".toList ("/tmp/tmp.".toList ++ suffix) 1,
               .posix_spawnp none [none, none]
                 (setenvList p.env "HOME".toList ("/tmp/tmp.".toList ++ suffix))
                 ("/tmp/tmp.".toList ++ suffix)] }
      | some userShell =>
        if w.shellSpawn ≠ 0 then
          .fatal EXIT_FAILURE "Couldn't spawn %s"
            { cwd := "/tmp/tmp.".toList ++ suffix,
              env := setenvList p.env "HOME".toList ("/tmp/tmp.".toList ++ suffix),
              sig := p.sig,
              trace := p.trace ++
                [.mkdtemp (some ("/tmp/tmp.".toList ++ suffix)),
                 .chdir ("/tmp/tmp.".toList ++ suffix),
                 .setenv "HOME".toList ("/tmp/tmp.".toList ++ suffix) 1,
                 .posix_spawnp (some userShell) [some userShell, none]
                   (setenvList p.env "HOME".toList ("/tmp/tmp.".toList ++ suffix))
                   ("/tmp/tmp.".toList ++ suffix)] }
        else
          .ok ()
            { cwd := "/tmp/tmp.".toList ++ suffix,
              env := setenvList p.env "HOME".toList ("/tmp/tmp.".toList ++ suffix),
              sig := p.sig,
              trace := p.trace ++
                [.mkdtemp (some ("/tmp/tmp.".toList ++ suffix)),
                 .chdir ("/tmp/tmp.".toList ++ suffix),
                 .setenv "HOME".toList ("/tmp/tmp.".toList ++ suffix) 1,
                 .posix_spawnp (some userShell) [some userShell, none]
                   (setenvList p.env "HOME".toList ("/tmp/tmp.".toList ++ suffix))
                   ("/tmp/tmp.".toList ++ suffix),
                 .waitpid] } := by
  have hsh : getenv (setenvList p.env "HOME".toList ("/tmp/tmp.".toList ++ suffix))
      "SHELL".toList = getenv p.env "SHELL".toList :=
    getenv_setenvList_ne _ _ _ _ (by decide)
  simp only [fakeTemp, hmk, hcd, hset, Bool.not_true, Bool.false_eq_true, if_false,
    Proc.emit, hsh]
  cases getenv p.env "SHELL".toList with
  | none => simp
  | some userShell =>
    by_cases hs : w.shellSpawn = 0
    · simp [hs]
    · simp [hs]

theorem fakeTemp_emits (w : World) (p : Proc) :
    Emits (fun e => e.isRelocation = true) p (fakeTemp w p).proc := by
  cases hmk : w.mkdtemp with
  | none =>
    simp only [fakeTemp, hmk]
    exact Emits.emit p _ rfl
  | some suffix =>
    by_cases hcd : w.chdir ("/tmp/tmp.".toList ++ suffix) = true
    · by_cases hset : w.setenv = true
      · rw [fakeTemp_of_relocated w p suffix hmk hcd hset]
        cases getenv p.env "SHELL".toList with
        | none => exact ⟨[_, _, _, _], rfl, by simp [Event.isRelocation]⟩
        | some userShell =>
          by_cases hs : w.shellSpawn = 0
          · simp only [hs, ne_eq, not_true_eq_false, if_false]
            exact ⟨[_, _, _, _, _], rfl, by simp [Event.isRelocation]⟩
          · simp only [hs, ne_eq, not_false_eq_true, if_true]
            exact ⟨[_, _, _, _], rfl, by simp [Event.isRelocation]⟩
      · simp only [fakeTemp, hmk, hcd, hset, Bool.not_true, Bool.false_eq_true, if_false,
          Bool.not_false, if_true]
        exact ⟨[.mkdtemp (some ("/tmp/tmp.".toList ++ suffix)),
          .chdir ("/tmp/tmp.".toList ++ suffix),
          .setenv "HOME".toList ("/tmp/tmp.".toList ++ suffix) 1],
          by simp [Res.proc, Proc.emit], by simp [Event.isRelocation]⟩
    · simp only [fakeTemp, hmk, hcd, Bool.not_eq_true, Bool.not_false, if_true]
      exact ⟨[.mkdtemp (some ("/tmp/tmp.".toList ++ suffix)),
        .chdir ("/tmp/tmp.".toList ++ suffix)],
        by simp [Res.proc, Proc.emit], by simp [Event.isRelocation]⟩

theorem fakeTemp_no_spawn (w : World) (p : Proc)
    (hnot : ¬ (∃ suffix, w.mkdtemp = some suffix ∧
      w.chdir ("/tmp/tmp.".toList ++ suffix) = true ∧ w.setenv = true)) :
    Emits (fun e => ∀ file argv envp cwd, e ≠ .posix_spawnp file argv envp cwd) p
      (fakeTemp w p).proc := by
  cases hmk : w.mkdtemp with
  | none =>
    simp only [fakeTemp, hmk]
    exact Emits.emit p _ (by intro _ _ _ _ h; cases h)
  | some suffix =>
    by_cases hcd : w.chdir ("/tmp/tmp.".toList ++ suffix) = true
    · have hset : ¬ w.setenv = true := fun hset => hnot ⟨suffix, hmk, hcd, hset⟩
      simp only [fakeTemp, hmk, hcd, hset, Bool.not_true, Bool.false_eq_true, if_false,
        Bool.not_false, if_true]
      refine ⟨[.mkdtemp (some ("/tmp/tmp.".toList ++ suffix)),
        .chdir ("/tmp/tmp.".toList ++ suffix),
        .setenv "HOME".toList ("/tmp/tmp.".toList ++ suffix) 1],
        by simp [Res.proc, Proc.emit], ?_⟩
      intro e he
      simp only [List.mem_cons, List.mem_singleton, List.not_mem_nil, or_false] at he
      rcases he with rfl | rfl | rfl <;> intro _ _ _ _ h <;> cases h
    · simp only [fakeTemp, hmk, hcd, Bool.not_eq_true, Bool.not_false, if_true]
      refine ⟨[.mkdtemp (some ("/tmp/tmp.".toList ++ suffix)),
        .chdir ("/tmp/tmp.".toList ++ suffix)],
        by simp [Res.proc, Proc.emit], ?_⟩
      intro e he
      simp only [List.mem_cons, List.mem_singleton, List.not_mem_nil, or_false] at he
      rcases he with rfl | rfl <;> intro _ _ _ _ h <;> cases h

/-- The calls of `fakeTemp` once `mkdtemp`, `chdir` and `setenv` have succeeded, and the
state it ends in. -/
theorem fakeTemp_relocated_trace (w : World) (p : Proc) (suffix : CStr)
    (hmk : w.mkdtemp = some suffix) (hcd : w.chdir ("/tmp/tmp.".toList ++ suffix) = true)
    (hset : w.setenv = true) :
    ∃ envp rest, (fakeTemp w p).proc.trace = p.trace ++
        [.mkdtemp (some ("/tmp/tmp.".toList ++ suffix)),
         .chdir ("/tmp/tmp.".toList ++ suffix),
         .setenv "HOME".toList ("/tmp/tmp.".toList ++ suffix) 1,
         .posix_spawnp (getenv p.env "SHELL".toList) [getenv p.env "SHELL".toList, none]
           envp ("/tmp/tmp.".toList ++ suffix)] ++ rest ∧
      getenv envp "HOME".toList = some ("/tmp/tmp.".toList ++ suffix) ∧
      (∀ name, name ≠ "HOME".toList → getenv envp name = getenv p.env name) ∧
      (fakeTemp w p).proc.cwd = "/tmp/tmp.".toList ++ suffix ∧
      (fakeTemp w p).proc.env = envp ∧
      (∀ e ∈ rest, e = .waitpid) := by
  refine ⟨setenvList p.env "HOME".toList ("/tmp/tmp.".toList ++ suffix), ?_⟩
  rw [fakeTemp_of_relocated w p suffix hmk hcd hset]
  have hH := getenv_setenvList_self p.env "HOME".toList ("/tmp/tmp.".toList ++ suffix)
  have hO : ∀ name, name ≠ "HOME".toList →
      getenv (setenvList p.env "HOME".toList ("/tmp/tmp.".toList ++ suffix)) name =
        getenv p.env name :=
    fun name hne => getenv_setenvList_ne _ _ _ _ hne
  cases getenv p.env "SHELL".toList with
  | none => exact ⟨[], by simp [Res.proc], hH, hO, rfl, rfl, by simp⟩
  | some userShell =>
    by_cases hs : w.shellSpawn = 0
    · exact ⟨[.waitpid], by simp [Res.proc, hs], hH, hO, by simp [Res.proc, hs],
        by simp [Res.proc, hs], by simp⟩
    · exact ⟨[], by simp [Res.proc, hs], hH, hO, by simp [Res.proc, hs],
        by simp [Res.proc, hs], by simp⟩

theorem listEntries_emits (Q : Event → Prop) (hp : ∀ text, Q (.printf text))
    (hu : ∀ usec, Q (.usleep usec)) (entries : List CStr) (p : Proc) :
    Emits Q p (listEntries entries p) := by
  rw [listEntries_eq]
  refine ⟨_, rfl, ?_⟩
  intro e he
  obtain ⟨name, _, hmem⟩ := List.mem_flatMap.mp he
  simp only [entryEvents, List.mem_cons, List.mem_singleton, List.not_mem_nil, or_false] at hmem
  rcases hmem with rfl | rfl
  · exact hp _
  · exact hu _

/-- The value of `pretendDelete` once the signals are ignored, `HOME` is set and its
directory is open: the enumeration is done, then `fakeTemp` is called. -/
theorem pretendDelete_of_listing (w : World) (p p1 : Proc) (homePath : CStr)
    (entries : List CStr) (hsig : ignoreSignals w p = .ok () p1)
    (hhome : getenv p.env "HOME".toList = some homePath)
    (hdir : w.opendir homePath = some entries) :
    pretendDelete w p =
      fakeTemp w
        { p1 with trace := p1.trace ++
            ([.printf "==< DELETING YOUR FILES... >==\n".toList, .opendir homePath] ++
             (entries.filter (fun name => !(name.head? == some '.'))).flatMap entryEvents ++
             [.closedir,
              .printf "\nTip: try writing correct code next time :)\n\n".toList]) } := by
  have henv : p1.env = p.env := (ignoreSignalsFrom_ok w _ p p1 hsig).2.1
  simp only [pretendDelete, hsig, Res.bind, Proc.emit, henv, hhome, hdir, listEntries_eq,
    List.append_assoc, List.singleton_append, List.cons_append, List.nil_append]

theorem emit_noLaunch (p : Proc) (e : Event) (h : e.isAppLaunch = false) :
    Emits (fun e => e.isAppLaunch = false) p (p.emit e) :=
  Emits.emit p e h

/-- What `pretendDelete` does comes after what its call of `ignoreSignals` does. -/
theorem pretendDelete_after_signals (w : World) (p : Proc) :
    Emits (fun e => e.isAppLaunch = false) (ignoreSignals w p).proc
      (pretendDelete w p).proc := by
  unfold pretendDelete
  cases hsig : ignoreSignals w p with
  | fatal status message p1 => exact Emits.refl _ _
  | undefined p1 => exact Emits.refl _ _
  | ok u p1 =>
    simp only [Res.bind]
    cases hhome : getenv (p1.emit (.printf "==< DELETING YOUR FILES... >==\n".toList)).env
        "HOME".toList with
    | none => exact emit_noLaunch _ _ (by rfl)
    | some homePath =>
      simp only
      cases hdir : w.opendir homePath with
      | none =>
        simp only
        exact (emit_noLaunch _ _ (by rfl)).trans (emit_noLaunch _ _ (by rfl))
      | some entries =>
        simp only
        refine (emit_noLaunch _ (.printf "==< DELETING YOUR FILES... >==\n".toList) rfl).trans
          ((emit_noLaunch _ (.opendir homePath) rfl).trans ?_)
        refine (listEntries_emits (fun e => e.isAppLaunch = false) (fun _ => rfl) (fun _ => rfl)
          entries _).trans ?_
        refine (emit_noLaunch _ .closedir rfl).trans
          ((emit_noLaunch _
            (.printf "\nTip: try writing correct code next time :)\n\n".toList) rfl).trans ?_)
        exact (fakeTemp_emits w _).mono
          (by intro e he; cases e <;> simp_all [Event.isRelocation, Event.isAppLaunch])

theorem pretendDelete_emits (w : World) (p : Proc) :
    Emits (fun e => e.isAppLaunch = false) p (pretendDelete w p).proc :=
  ((ignoreSignalsFrom_emits w _ p).mono (by rintro e ⟨s, rfl⟩; rfl)).trans
    (pretendDelete_after_signals w p)

theorem ignoreSignalsFrom_cons (w : World) (signal : Nat) (rest : List Nat) (p : Proc) :
    ignoreSignalsFrom w (signal :: rest) p =
      if signal == SIGKILL || signal == SIGSTOP || signal == SIGHUP then
        ignoreSignalsFrom w rest p
      else
        if w.sigaction signal then
          ignoreSignalsFrom w rest
            { p.emit (.sigaction signal) with
              sig := fun s => if s = signal then Disposition.ignore
                else (p.emit (.sigaction signal)).sig s }
        else .fatal EXIT_FAILURE "Couldn't set signal %d" (p.emit (.sigaction signal)) := rfl

/-- The first thing `ignoreSignals` does is to call `sigaction` for signal 2: signal 1 is
`SIGHUP` and is skipped. -/
theorem ignoreSignals_first_call (w : World) (p : Proc) :
    ∃ rest, (ignoreSignals w p).proc.trace = p.trace ++ [.sigaction 2] ++ rest := by
  have hr : List.range' 1 31 = 1 :: 2 :: List.range' 3 29 := by decide
  have h1 : (1 == SIGKILL || 1 == SIGSTOP || 1 == SIGHUP) = true := by decide
  have h2 : ¬ (2 == SIGKILL || 2 == SIGSTOP || 2 == SIGHUP) = true := by decide
  unfold ignoreSignals
  rw [hr, ignoreSignalsFrom_cons, if_pos h1, ignoreSignalsFrom_cons, if_neg h2]
  by_cases hok : w.sigaction 2 = true
  · rw [if_pos hok]
    obtain ⟨evs, ht, _⟩ := ignoreSignalsFrom_emits w (List.range' 3 29)
      { p.emit (.sigaction 2) with
        sig := fun s => if s = 2 then Disposition.ignore else (p.emit (.sigaction 2)).sig s }
    exact ⟨evs, by rw [ht]; rfl⟩
  · rw [if_neg hok]
    exact ⟨[], by simp [Res.proc, Proc.emit]⟩

theorem pretendDelete_first_call (w : World) (p : Proc) :
    ∃ rest, (pretendDelete w p).proc.trace = p.trace ++ [.sigaction 2] ++ rest := by
  obtain ⟨r1, h1⟩ := ignoreSignals_first_call w p
  obtain ⟨r2, h2, _⟩ := pretendDelete_after_signals w p
  exact ⟨r1 ++ r2, by rw [h2, h1, List.append_assoc]⟩

theorem startsWith_append (marker after : CStr) : startsWith (marker ++ after) marker = true :=
  (startsWith_iff _ _).mpr ⟨after, rfl⟩

theorem filter_deleting_entryEvents (names : List CStr) :
    (names.flatMap entryEvents).filter Event.isDeletingLine =
      names.map (fun name => Event.printf ("Deleting ~/".toList ++ name ++ "\n".toList)) := by
  induction names with
  | nil => rfl
  | cons name rest ih =>
    have hline : Event.isDeletingLine
        (.printf ("Deleting ~/".toList ++ name ++ "\n".toList)) = true := by
      show startsWith ("Deleting ~/".toList ++ name ++ "\n".toList) "Deleting ~/".toList = true
      rw [List.append_assoc]
      exact startsWith_append _ _
    rw [List.flatMap_cons, List.filter_append, ih, List.map_cons]
    simp only [entryEvents, List.filter_cons, hline, if_true]
    rfl

theorem filter_eq_nil_of_emits (f : Event → Bool) (evs : List Event)
    (h : ∀ e ∈ evs, f e = false) : evs.filter f = [] := by
  rw [List.filter_eq_nil_iff]
  intro e he
  rw [h e he]
  simp

/-! ## Lemmas on C strings in buffers -/

theorem cstring_append_nul (text rest : List Char) :
    cstring (text ++ NUL :: rest) = cstring text := by
  induction text with
  | nil => simp [cstring, List.takeWhile]
  | cons c cs ih =>
    unfold cstring at ih ⊢
    by_cases hc : c = NUL
    · simp [List.takeWhile, hc]
    · simp [List.takeWhile, hc, ih]

theorem cstring_of_no_nul (text : List Char) (h : ∀ c ∈ text, c ≠ NUL) :
    cstring text = text := by
  induction text with
  | nil => rfl
  | cons c cs ih =>
    have hc : c ≠ NUL := h c (List.mem_cons_self _ _)
    have ih1 := ih (fun d hd => h d (List.mem_cons_of_mem _ hd))
    have hb : (c != NUL) = true := by simpa using hc
    unfold cstring at ih1 ⊢
    simp [List.takeWhile, hb, ih1]

/-- After a completed capture the buffer holds the stream followed by a NUL, so the C
string in it is the stream up to its first NUL. -/
theorem capture_cstring (reallocOk : Nat → Bool) (junk : Nat → Char) (stream : List Char)
    (st : Capture) (h : capture reallocOk junk stream = .ok st) :
    cstring st.stderrOutput = cstring stream := by
  unfold capture at h
  cases hl : readLoop reallocOk junk stream Capture.initial with
  | error e => simp [hl] at h
  | ok st0 =>
    simp only [hl, Capture.terminate, Capture.store] at h
    obtain ⟨_, _, hc, ht, _⟩ := readLoop_spec_of_ok reallocOk junk stream Capture.initial st0
      wf_initial cap_initial hl
    by_cases hin : st0.outputCount < st0.stderrOutput.length
    · simp only [hin, if_true, Except.ok.injEq] at h
      subst h
      have hset := @List.set_eq_take_append_cons_drop _ st0.stderrOutput st0.outputCount NUL
      rw [if_pos hin] at hset
      show cstring (st0.stderrOutput.set st0.outputCount NUL) = _
      rw [hset, ht]
      simp only [Capture.initial, List.take_zero, List.nil_append]
      exact cstring_append_nul _ _
    · simp [hin] at h

/-- A stream shorter than the initial capacity is captured without growth. -/
theorem capture_returns_of_short (reallocOk : Nat → Bool) (junk : Nat → Char)
    (stream : List Char) (h : stream.length < 128) :
    ∃ st, capture reallocOk junk stream = .ok st := by
  obtain ⟨st0, h0, _, hc, hl⟩ := readLoop_fits reallocOk junk stream Capture.initial
    wf_initial (by show 0 + stream.length ≤ 128; omega)
  have hc1 : st0.outputCount = 0 + stream.length := hc
  have hl1 : st0.stderrOutput.length = 128 := hl
  have hin : st0.outputCount < st0.stderrOutput.length := by omega
  exact ⟨Capture.mk (st0.stderrOutput.set st0.outputCount NUL) st0.maxOutputSize
    st0.outputCount,
    by simp only [capture, h0, Capture.terminate, Capture.store, hin, if_true]⟩

theorem proc_bind_free (r : Res Unit) (dccArgs : DccArgs) :
    (r.bind (fun _ q => Res.ok 0 (freeDccArgs dccArgs q))).proc = r.proc := by
  cases r <;> rfl

theorem constructDccArgs_returns (w : World) (argc : Nat) (argv : List CStr) (p : Proc)
    (hcalloc : w.callocArgs = true) :
    ∃ dccArgs, constructDccArgs w argc argv p = .ok dccArgs p := by
  simp [constructDccArgs, hcalloc]

/-- The value of `main` when `dcc` ran and its status word is not 0. -/
theorem main_of_compile_failure (w : World) (argc : Nat) (argv : List CStr) (p : Proc)
    (dccArgs : DccArgs) (status : Int) (hargc : 2 ≤ argc)
    (hc : constructDccArgs w argc argv (p.emit (.printf banner)) =
      .ok dccArgs (p.emit (.printf banner)))
    (hhead : dccArgs.args.getD 0 none = some "dcc".toList)
    (hspawn : w.dccSpawn = 0) (hwait : w.dccWait = some status) (hne : status ≠ 0) :
    main w argc argv p =
      (pretendDelete w
        { p with trace := p.trace ++
            [.printf banner,
             .posix_spawnp (some "dcc".toList) dccArgs.args p.env p.cwd,
             .waitpid,
             .printf "==< YOUR PROGRAM FAILED TO COMPILE. GOODBYE. >==\n".toList] }).bind
        (fun _ q => .ok 0 (freeDccArgs dccArgs q)) := by
  have hlt : ¬ argc < 2 := by omega
  have hb : (status == 0) = false := by simpa using hne
  simp only [main, hlt, if_false, hc, Res.bind, spawnDcc, hhead, hspawn, ne_eq,
    not_true_eq_false, hwait, hb, Bool.false_eq_true]
  simp only [Proc.emit, List.append_assoc, List.singleton_append, List.cons_append,
    List.nil_append]

theorem main_no_launch (w : World) (argc : Nat) (argv : List CStr) (p : Proc)
    (hargc : 2 ≤ argc) (hnot : ¬ (w.dccSpawn = 0 ∧ w.dccWait = some 0)) :
    Emits (fun e => e.isAppLaunch = false) p (main w argc argv p).proc := by
  have hlt : ¬ argc < 2 := by omega
  by_cases hcalloc : w.callocArgs = true
  · obtain ⟨dccArgs, hc⟩ := constructDccArgs_returns w argc argv (p.emit (.printf banner)) hcalloc
    cases hhead : dccArgs.args.getD 0 none with
    | none =>
      simp only [main, hlt, if_false, hc, Res.bind, spawnDcc, hhead, Res.proc]
      exact (emit_noLaunch _ (.printf banner) rfl).trans
        (emit_noLaunch _ (.posix_spawnp _ _ _ _) rfl)
    | some name =>
      by_cases hspawn : w.dccSpawn = 0
      · cases hwait : w.dccWait with
        | none =>
          simp only [main, hlt, if_false, hc, Res.bind, spawnDcc, hhead, hspawn, ne_eq,
            not_true_eq_false, hwait, Res.proc]
          exact (emit_noLaunch _ (.printf banner) rfl).trans
            ((emit_noLaunch _ (.posix_spawnp _ _ _ _) rfl).trans
              (emit_noLaunch _ .waitpid rfl))
        | some status =>
          have hne : status ≠ 0 := by
            rintro rfl
            exact hnot ⟨hspawn, hwait⟩
          have hb : (status == 0) = false := by simpa using hne
          simp only [main, hlt, if_false, hc, Res.bind, spawnDcc, hhead, hspawn, ne_eq,
            not_true_eq_false, hwait, hb, Bool.false_eq_true]
          have hfree := proc_bind_free
            (pretendDelete w
              ((((p.emit (.printf banner)).emit
                (.posix_spawnp (some name) dccArgs.args (p.emit (.printf banner)).env
                  (p.emit (.printf banner)).cwd)).emit .waitpid).emit
                (.printf "==< YOUR PROGRAM FAILED TO COMPILE. GOODBYE. >==\n".toList)))
            dccArgs
          simp only [Res.bind] at hfree
          rw [hfree]
          refine Emits.trans ?_ (pretendDelete_emits w _)
          exact (emit_noLaunch _ (.printf banner) rfl).trans
            ((emit_noLaunch _ (.posix_spawnp _ _ _ _) rfl).trans
              ((emit_noLaunch _ .waitpid rfl).trans (emit_noLaunch _ (.printf _) rfl)))
      · simp only [main, hlt, if_false, hc, Res.bind, spawnDcc, hhead, hspawn, ne_eq,
          not_false_eq_true, if_true, Res.proc]
        exact (emit_noLaunch _ (.printf banner) rfl).trans
          (emit_noLaunch _ (.posix_spawnp _ _ _ _) rfl)
  · have hf : constructDccArgs w argc argv (p.emit (.printf banner)) =
        .fatal EXIT_FAILURE "Failed to calloc DccArgs" (p.emit (.printf banner)) := by
      simp [constructDccArgs, hcalloc]
    simp only [main, hlt, if_false, hf, Res.bind, Res.proc]
    exact emit_noLaunch _ (.printf banner) rfl

/-- The calls of `main` on a failed compilation when the enumeration and the relocation
go through: the failure message, the signal calls, the listing of the home directory,
then the relocation into the temporary directory and the shell spawn. -/
theorem main_failure_trace (w : World) (argc : Nat) (argv : List CStr) (p : Proc)
    (status : Int) (homePath : CStr) (entries : List CStr) (suffix : CStr)
    (hargc : 2 ≤ argc) (hcalloc : w.callocArgs = true) (hdup : w.strdup 0 = true)
    (hspawn : w.dccSpawn = 0) (hwait : w.dccWait = some status) (hne : status ≠ 0)
    (hsig : ∀ s, 1 ≤ s → s ≤ 31 → s ≠ SIGKILL → s ≠ SIGSTOP → s ≠ SIGHUP →
      w.sigaction s = true)
    (hhome : getenv p.env "HOME".toList = some homePath)
    (hdir : w.opendir homePath = some entries)
    (hmk : w.mkdtemp = some suffix) (hcd : w.chdir ("/tmp/tmp.".toList ++ suffix) = true)
    (hset : w.setenv = true) :
    ∃ (dccArgs : DccArgs) (envp : List (CStr × CStr)) (rest : List Event),
      (main w argc argv p).proc.trace = p.trace ++
        [.printf banner,
         .posix_spawnp (some "dcc".toList) dccArgs.args p.env p.cwd,
         .waitpid,
         .printf "==< YOUR PROGRAM FAILED TO COMPILE. GOODBYE. >==\n".toList] ++
        ((List.range' 1 31).filter
          (fun s => !(s == SIGKILL || s == SIGSTOP || s == SIGHUP))).map Event.sigaction ++
        [.printf "==< DELETING YOUR FILES... >==\n".toList, .opendir homePath] ++
        (entries.filter (fun name => !(name.head? == some '.'))).flatMap entryEvents ++
        [.closedir, .printf "\nTip: try writing correct code next time :)\n\n".toList] ++
        [.mkdtemp (some ("/tmp/tmp.".toList ++ suffix)),
         .chdir ("/tmp/tmp.".toList ++ suffix),
         .setenv "HOME".toList ("/tmp/tmp.".toList ++ suffix) 1,
         .posix_spawnp (getenv p.env "SHELL".toList) [getenv p.env "SHELL".toList, none]
           envp ("/tmp/tmp.".toList ++ suffix)] ++ rest ∧
      getenv envp "HOME".toList = some ("/tmp/tmp.".toList ++ suffix) ∧
      (main w argc argv p).proc.cwd = "/tmp/tmp.".toList ++ suffix ∧
      (∀ e ∈ rest, e = .waitpid) := by
  obtain ⟨dccArgs, hc, hhead⟩ :=
    constructDccArgs_head w argc argv (p.emit (.printf banner)) hargc hcalloc hdup
  rw [main_of_compile_failure w argc argv p dccArgs status hargc hc hhead hspawn hwait hne,
    proc_bind_free]
  obtain ⟨p1, hp1⟩ := ignoreSignalsFrom_total w (List.range' 1 31)
    { p with trace := p.trace ++
        [.printf banner,
         .posix_spawnp (some "dcc".toList) dccArgs.args p.env p.cwd,
         .waitpid,
         .printf "==< YOUR PROGRAM FAILED TO COMPILE. GOODBYE. >==\n".toList] }
    (fun s hs => hsig s ((mem_range_signals s).mp hs).1 ((mem_range_signals s).mp hs).2)
  have htr := ignoreSignalsFrom_trace w _ _ p1 hp1
  have henv : p1.env = p.env := (ignoreSignalsFrom_ok w _ _ p1 hp1).2.1
  rw [pretendDelete_of_listing w _ p1 homePath entries hp1 hhome hdir]
  obtain ⟨envp, rest, ht, hH, _, hcwd, _, hrest⟩ := fakeTemp_relocated_trace w
    { p1 with trace := p1.trace ++
        ([.printf "==< DELETING YOUR FILES... >==\n".toList, .opendir homePath] ++
         (entries.filter (fun name => !(name.head? == some '.'))).flatMap entryEvents ++
         [.closedir,
          .printf "\nTip: try writing correct code next time :)\n\n".toList]) }
    suffix hmk hcd hset
  refine ⟨dccArgs, envp, rest, ?_, hH, hcwd, hrest⟩
  rw [ht]
  show (p1.trace ++ _) ++ _ ++ rest = _
  rw [htr]
  show ((p.trace ++ _) ++ _ ++ _) ++ [_, _, _, Event.posix_spawnp (getenv p1.env _) _ _ _]
    ++ rest = _
  rw [henv]
  simp only [List.append_assoc]

theorem stderrBytes_append (a b : List Event) :
    stderrBytes (a ++ b) = stderrBytes a ++ stderrBytes b := by
  induction a with
  | nil => rfl
  | cons e rest ih =>
    cases e <;> simp [stderrBytes, ih]

theorem findError_congr (a b : List Char) (h : cstring a = cstring b) :
    findError a = findError b := by
  simp only [findError, h]

/-- The value of `spawnCompiledApp` when it returns without a marker having been found:
the run got through the set-up, the capture and the wait, then echoed the text. -/
theorem spawnCompiledApp_of_quiet (w : World) (p p1 : Proc)
    (hno : findError w.childStderr = false)
    (hret : spawnCompiledApp w p = .ok () p1) :
    ∃ pipeRead pipeWrite, w.pipe = some (pipeRead, pipeWrite) ∧
      p1.trace = p.trace ++
        [.pipe,
         .posix_spawn "./a.out".toList
           [.adddup2 pipeWrite STDERR_FILENO, .addclose pipeRead, .addclose pipeWrite]
           [some "./a.out".toList, none] p.env p.cwd,
         .close pipeWrite, .fdopen pipeRead, .fclose, .waitpid,
         .fprintfStderr (fprintfLine w.fprintfOverflow (cstring w.childStderr)),
         .printf "==< No errors found, your're safe... for now :) >==\n".toList] := by
  unfold spawnCompiledApp at hret
  cases hp : w.pipe with
  | none => simp [hp] at hret
  | some fds =>
    obtain ⟨pipeRead, pipeWrite⟩ := fds
    refine ⟨pipeRead, pipeWrite, rfl, ?_⟩
    simp only [hp] at hret
    by_cases h1 : w.fileActionsInit = 0
    · by_cases h2 : w.adddup2 = 0
      · by_cases h3 : w.addcloseRead = 0
        · by_cases h4 : w.addcloseWrite = 0
          · by_cases h5 : w.appSpawn = 0
            · by_cases h6 : w.callocBuffer = true
              · by_cases h7 : w.fdopen = true
                · simp only [h1, h2, h3, h4, h5, h6, h7, ne_eq, not_true_eq_false, if_false,
                    Bool.not_true, Bool.false_eq_true] at hret
                  cases hcap : capture w.realloc w.reallocJunk w.childStderr with
                  | error e =>
                    cases e <;> simp [hcap] at hret
                  | ok st =>
                    simp only [hcap] at hret
                    cases hw : w.appWait with
                    | none => simp [hw] at hret
                    | some status =>
                      have hcs := capture_cstring _ _ _ st hcap
                      have hfe : findError st.stderrOutput = false := by
                        rw [findError_congr _ _ hcs]
                        exact hno
                      simp only [hw, hfe, Bool.false_eq_true, if_false, Res.ok.injEq,
                        true_and] at hret
                      rw [← hret, hcs]
                      simp [Proc.emit, COMPILED_APP_NAME]
                · simp [h1, h2, h3, h4, h5, h6, h7] at hret
              · simp [h1, h2, h3, h4, h5, h6] at hret
            · simp [h1, h2, h3, h4, h5] at hret
          · simp [h1, h2, h3, h4] at hret
        · simp [h1, h2, h3] at hret
      · simp [h1, h2] at hret
    · simp [h1] at hret

theorem fprintfLine_of_short (overflow : List Char) (s : CStr) (h : s.length < INT_MAX) :
    fprintfLine overflow s = s ++ "\n".toList := by
  have h1 : s.length + 1 ≤ INT_MAX := h
  simp only [fprintfLine, h1, if_true]

theorem stderrBytes_of_quiet (w : World) (p p1 : Proc)
    (hshort : (cstring w.childStderr).length < INT_MAX)
    (hno : findError w.childStderr = false)
    (hret : spawnCompiledApp w p = .ok () p1) :
    stderrBytes p1.trace = stderrBytes p.trace ++ cstring w.childStderr ++ "\n".toList := by
  obtain ⟨pipeRead, pipeWrite, _, ht⟩ := spawnCompiledApp_of_quiet w p p1 hno hret
  rw [ht, stderrBytes_append, fprintfLine_of_short _ _ hshort]
  simp [stderrBytes]

/-- When every call of the set-up succeeds, the stream is captured and the wait
succeeds, and no marker is found, `spawnCompiledApp` returns. -/
theorem spawnCompiledApp_returns (w : World) (p : Proc) (pipeRead pipeWrite : Nat)
    (st : Capture) (status : Int)
    (hp : w.pipe = some (pipeRead, pipeWrite)) (h1 : w.fileActionsInit = 0)
    (h2 : w.adddup2 = 0) (h3 : w.addcloseRead = 0) (h4 : w.addcloseWrite = 0)
    (h5 : w.appSpawn = 0) (h6 : w.callocBuffer = true) (h7 : w.fdopen = true)
    (hcap : capture w.realloc w.reallocJunk w.childStderr = .ok st)
    (hw : w.appWait = some status) (hfe : findError st.stderrOutput = false) :
    ∃ p1, spawnCompiledApp w p = .ok () p1 := by
  simp [spawnCompiledApp, hp, h1, h2, h3, h4, h5, h6, h7, hcap, hw, hfe]

/-! ## The claims -/

/-- C1 (as amended): `findError` returns true exactly when the C string in the buffer it
is given, which is the captured text up to its first NUL byte, contains one of the four
markers as a case-sensitive contiguous substring; for a captured text without a NUL
byte this is the whole text, whatever follows the terminator in the buffer. -/
theorem findError_iff_marker_before_nul :
    (∀ stderrOutput : List Char,
      findError stderrOutput = true ↔
        ∃ marker ∈ errorMarkers, Contains (cstring stderrOutput) marker) ∧
    (∀ text rest : List Char, (∀ c ∈ text, c ≠ NUL) →
      (findError (text ++ NUL :: rest) = true ↔
        ∃ marker ∈ errorMarkers, Contains text marker)) := by
  refine ⟨findError_iff, ?_⟩
  intro text rest hno
  rw [findError_iff, cstring_append_nul, cstring_of_no_nul text hno]

/-- C1 (counterexample): the captured text consisting of a NUL byte followed by
`Runtime error` contains a marker, yet `findError` returns false on the terminated
buffer holding it, because `strstr` stops at the first NUL. -/
theorem findError_misses_marker_after_nul :
    Contains (NUL :: "Runtime error".toList) "Runtime error".toList ∧
      "Runtime error".toList ∈ errorMarkers ∧
      findError (NUL :: "Runtime error".toList ++ [NUL]) = false :=
  ⟨⟨[NUL], [], by simp⟩, by simp [errorMarkers], by decide⟩

/-- C2: for every stream, when the read loop reaches end-of-stream `outputCount` is the
number of bytes read and the first `outputCount` bytes of the buffer are the stream;
at every earlier point of the loop the bytes accumulated so far are the same bytes the
final buffer starts with, so no growth event changes them, and the capacity never
shrinks; and the loop does reach end-of-stream when every `realloc` succeeds and the
stream has at most `2 ^ 63` bytes. -/
theorem readLoop_captures_stream (reallocOk : Nat → Bool) (junk : Nat → Char)
    (stream : List Char) :
    (stream.length ≤ 2 ^ 63 → (∀ size, reallocOk size = true) →
      ∃ st, readLoop reallocOk junk stream Capture.initial = .ok st) ∧
    (∀ st, readLoop reallocOk junk stream Capture.initial = .ok st →
      st.outputCount = stream.length ∧
      st.stderrOutput.take st.outputCount = stream ∧
      (∀ pre post, stream = pre ++ post →
        ∃ mid, readLoop reallocOk junk pre Capture.initial = .ok mid ∧
          readLoop reallocOk junk post mid = .ok st ∧
          mid.outputCount = pre.length ∧
          mid.maxOutputSize ≤ st.maxOutputSize ∧
          mid.stderrOutput.take mid.outputCount = pre ∧
          st.stderrOutput.take mid.outputCount = pre)) := by
  refine ⟨fun hlen hok => readLoop_total reallocOk junk stream hok _ wf_initial
    (by simpa [Capture.initial] using hlen), ?_⟩
  intro st h
  obtain ⟨_, _, hc, ht, _⟩ :=
    readLoop_spec_of_ok reallocOk junk stream _ st wf_initial cap_initial h
  have hc1 : st.outputCount = stream.length := by simpa [Capture.initial] using hc
  have ht1 : st.stderrOutput.take st.outputCount = stream := by
    simpa [Capture.initial] using ht
  refine ⟨hc1, ht1, ?_⟩
  intro pre post hsplit
  subst hsplit
  obtain ⟨mid, hpre, hpost⟩ := readLoop_append reallocOk junk pre post _ st h
  obtain ⟨hwfm, hcapm, hcm, htm, _⟩ :=
    readLoop_spec_of_ok reallocOk junk pre _ mid wf_initial cap_initial hpre
  have hcm1 : mid.outputCount = pre.length := by simpa [Capture.initial] using hcm
  have htm1 : mid.stderrOutput.take mid.outputCount = pre := by
    simpa [Capture.initial] using htm
  obtain ⟨_, _, _, _, hmono⟩ := readLoop_spec_of_ok reallocOk junk post mid st hwfm hcapm hpost
  refine ⟨mid, hpre, hpost, hcm1, hmono, htm1, ?_⟩
  have := congrArg (List.take pre.length) ht1
  rw [hc1, List.take_take] at this
  simp only [List.length_append] at this
  rw [hcm1]
  simpa using this

/-- C2 (witness): a stream of 130 bytes, which makes the buffer grow once. -/
theorem readLoop_captures_stream_witness :
    ∃ st, readLoop (fun _ => true) (fun _ => 'j') (List.replicate 130 'A')
        Capture.initial = .ok st ∧
      st.outputCount = 130 ∧ 128 < st.maxOutputSize ∧
      st.stderrOutput.take st.outputCount = List.replicate 130 'A' := by
  have hlen : (List.replicate 130 'A').length = 130 := List.length_replicate _ _
  have h := readLoop_captures_stream (fun _ => true) (fun _ => 'j') (List.replicate 130 'A')
  obtain ⟨st, hst⟩ := h.1 (by rw [hlen]; decide) (fun _ => rfl)
  obtain ⟨hc, ht, _⟩ := h.2 st hst
  have hwf := (readLoop_spec_of_ok (fun _ => true) (fun _ => 'j') (List.replicate 130 'A')
    _ st wf_initial cap_initial hst).1
  have hle : st.outputCount ≤ st.maxOutputSize := hwf.2.1
  rw [hlen] at hc
  exact ⟨st, hst, hc, by omega, ht⟩

/-- C3 (the code at the failing input): when the child writes exactly 128 bytes the loop
ends with `outputCount = maxOutputSize = 128`, the size of the allocation, so the
capacity is not at least `outputCount + 1` and the terminator store at index 128 is
outside the buffer.  The same happens for every stream whose length is 128 times a
power of two. -/
theorem terminator_store_out_of_bounds_at_128 :
    (∃ st, readLoop (fun _ => true) (fun _ => NUL) (List.replicate 128 'A')
        Capture.initial = .ok st ∧
      st.outputCount = 128 ∧ st.maxOutputSize = 128 ∧ st.stderrOutput.length = 128 ∧
      ¬ (st.outputCount + 1 ≤ st.maxOutputSize) ∧
      st.terminate = .error (.outOfBounds 128 128) ∧
      capture (fun _ => true) (fun _ => NUL) (List.replicate 128 'A') =
        .error (.outOfBounds 128 128)) ∧
    (∀ (reallocOk : Nat → Bool) (junk : Nat → Char) (stream : List Char) (k : Nat),
      (∀ size, reallocOk size = true) → 128 * 2 ^ k ≤ 2 ^ 63 →
      stream.length = 128 * 2 ^ k →
      capture reallocOk junk stream = .error (.outOfBounds (128 * 2 ^ k) (128 * 2 ^ k))) := by
  refine ⟨?_, fun reallocOk junk stream k hok hk hlen =>
    capture_overflows reallocOk junk stream k hok hk hlen⟩
  have hlen : (List.replicate 128 'A').length = 128 := List.length_replicate _ _
  obtain ⟨st, hst, hm, hc, hl⟩ := readLoop_fits (fun _ => true) (fun _ => NUL)
    (List.replicate 128 'A') Capture.initial wf_initial
    (by rw [hlen]; exact Nat.le_refl _)
  rw [hlen] at hc
  have hc1 : st.outputCount = 128 := hc
  have hm1 : st.maxOutputSize = 128 := hm
  have hl1 : st.stderrOutput.length = 128 := hl
  have ht : st.terminate = .error (.outOfBounds 128 128) := by
    simp [Capture.terminate, Capture.store, hc1, hl1]
  refine ⟨st, hst, hc1, hm1, hl1, by omega, ht, ?_⟩
  simp only [capture, hst, ht]

/-- C10 (the code at the failing input): for the command line `ccc prog.c`, when the
`strdup` of `prog.c` returns NULL the vector returned is `dcc`, `-o`, `a.out`, NULL,
NULL: slot 3 is not the sentinel and is NULL, and the user argument is dropped.  In
every run a failed `strdup` for a slot before the last leaves that slot NULL.  When
`calloc` and every `strdup` succeed the vector is what the claim says: `argc + 3`
slots holding `dcc`, `-o`, `a.out`, then `argv[1]`, ..., `argv[argc-1]` in order, then
NULL, with every other slot non-null. -/
theorem constructDccArgs_stores_null_on_failed_strdup :
    (∃ dccArgs,
      constructDccArgs { sampleWorld with strdup := fun i => i != 3 } 2 sampleArgv
        sampleProc = .ok dccArgs sampleProc ∧
      dccArgs.length = 5 ∧
      dccArgs.args =
        [some "dcc".toList, some "-o".toList, some "a.out".toList, none, none]) ∧
    (∀ (w : World) (argc : Nat) (argv : List CStr) (p : Proc) (i : Nat),
      2 ≤ argc → w.callocArgs = true → i < argc + 2 → w.strdup i = false →
      ∃ dccArgs, constructDccArgs w argc argv p = .ok dccArgs p ∧
        dccArgs.args[i]? = some none) ∧
    (∀ (w : World) (argc : Nat) (argv : List CStr) (p : Proc),
      2 ≤ argc → argv.length = argc → w.callocArgs = true →
      (∀ i, i < argc + 2 → w.strdup i = true) →
      ∃ dccArgs, constructDccArgs w argc argv p = .ok dccArgs p ∧
        dccArgs.length = argc + 3 ∧ dccArgs.args.length = argc + 3 ∧
        dccArgs.args = [some "dcc".toList, some "-o".toList, some "a.out".toList] ++
          (argv.drop 1).map some ++ [none] ∧
        dccArgs.args[argc + 2]? = some none ∧
        (∀ i, i < argc + 2 → ∃ s, dccArgs.args[i]? = some (some s)) ∧
        (∀ i, 1 ≤ i → i < argc → dccArgs.args[i + 2]? = some argv[i]?)) := by
  refine ⟨⟨_, rfl, rfl, by decide⟩, ?_, ?_⟩
  · intro w argc argv p i hargc hcalloc hi hfail
    exact constructDccArgs_null_slot w argc argv p i hargc hcalloc hi hfail
  · intro w argc argv p hargc hargv hcalloc hdup
    obtain ⟨dccArgs, h, hl, hargs⟩ := constructDccArgs_eq w argc argv p hargc hargv hcalloc hdup
    refine ⟨dccArgs, h, hl, ?_, hargs, ?_, ?_, ?_⟩
    · rw [hargs]
      simp only [List.length_append, List.length_map, List.length_drop, List.length_cons,
        List.length_nil]
      omega
    · rw [hargs, List.getElem?_append_right (by simp; omega)]
      have : argc + 2 - ([some "dcc".toList, some "-o".toList, some "a.out".toList] ++
          (argv.drop 1).map some).length = 0 := by
        simp only [List.length_append, List.length_map, List.length_drop, List.length_cons,
          List.length_nil]
        omega
      rw [this]
      rfl
    · intro i hi
      rw [hargs, List.getElem?_append_left (by simp; omega)]
      rcases i with _ | _ | _ | k
      · exact ⟨"dcc".toList, by simp⟩
      · exact ⟨"-o".toList, by simp⟩
      · exact ⟨"a.out".toList, by simp⟩
      · have hk : 1 + k < argv.length := by omega
        refine ⟨argv[1 + k], ?_⟩
        simp only [List.cons_append, List.nil_append, List.getElem?_cons_succ,
          List.getElem?_map, List.getElem?_drop, List.getElem?_eq_getElem hk,
          Option.map_some']
    · intro i h1 hi
      rw [hargs, List.getElem?_append_left (by simp; omega)]
      obtain ⟨k, rfl⟩ : ∃ k, i = 1 + k := ⟨i - 1, by omega⟩
      have hk : 1 + k < argv.length := by omega
      have e : 1 + k + 2 = k + 1 + 1 + 1 := by omega
      rw [e]
      simp only [List.cons_append, List.nil_append, List.getElem?_cons_succ,
        List.getElem?_map, List.getElem?_drop, List.getElem?_eq_getElem hk, Option.map_some']

/-- C5 (as amended): after `ignoreSignals` returns, every signal from 1 to 31 other than
`SIGKILL`, `SIGSTOP` and `SIGHUP` is ignored and those three have the disposition they
had before the call, so a signal in range is ignored exactly when it is not one of the
three provided none of the three was ignored beforehand; if `sigaction` fails for any
other signal in range the call is fatal with `EXIT_FAILURE`, and otherwise it returns. -/
theorem ignoreSignals_dispositions (w : World) (p : Proc) :
    (∀ p1, ignoreSignals w p = .ok () p1 →
      ∀ s, 1 ≤ s → s ≤ 31 →
        (s ≠ SIGKILL ∧ s ≠ SIGSTOP ∧ s ≠ SIGHUP → p1.sig s = .ignore) ∧
        (s = SIGKILL ∨ s = SIGSTOP ∨ s = SIGHUP → p1.sig s = p.sig s) ∧
        ((∀ t, t = SIGKILL ∨ t = SIGSTOP ∨ t = SIGHUP → p.sig t ≠ .ignore) →
          (p1.sig s = .ignore ↔ s ≠ SIGKILL ∧ s ≠ SIGSTOP ∧ s ≠ SIGHUP))) ∧
    ((∃ s, 1 ≤ s ∧ s ≤ 31 ∧ s ≠ SIGKILL ∧ s ≠ SIGSTOP ∧ s ≠ SIGHUP ∧
        w.sigaction s = false) →
      ∃ message p1, ignoreSignals w p = .fatal EXIT_FAILURE message p1) ∧
    ((∀ s, 1 ≤ s → s ≤ 31 → s ≠ SIGKILL → s ≠ SIGSTOP → s ≠ SIGHUP →
        w.sigaction s = true) →
      ∃ p1, ignoreSignals w p = .ok () p1) := by
  refine ⟨?_, ?_, ?_⟩
  · intro p1 h s h1 h31
    obtain ⟨_, _, hs⟩ := ignoreSignalsFrom_ok w _ p p1 h
    have hmem : s ∈ List.range' 1 31 := (mem_range_signals s).mpr ⟨h1, h31⟩
    have hA : s ≠ SIGKILL ∧ s ≠ SIGSTOP ∧ s ≠ SIGHUP → p1.sig s = .ignore :=
      fun hne => (hs s).1 ⟨hmem, hne⟩
    have hB : s = SIGKILL ∨ s = SIGSTOP ∨ s = SIGHUP → p1.sig s = p.sig s :=
      fun hex => (hs s).2 (by rintro ⟨_, ha, hb, hc⟩; rcases hex with h | h | h <;> contradiction)
    refine ⟨hA, hB, fun hprior => ⟨fun hign => ?_, hA⟩⟩
    by_contra hcon
    have hex : s = SIGKILL ∨ s = SIGSTOP ∨ s = SIGHUP := by
      by_cases ha : s = SIGKILL
      · exact Or.inl ha
      · by_cases hb : s = SIGSTOP
        · exact Or.inr (Or.inl hb)
        · by_cases hc : s = SIGHUP
          · exact Or.inr (Or.inr hc)
          · exact absurd ⟨ha, hb, hc⟩ hcon
    exact hprior s hex (by rw [← hB hex]; exact hign)
  · rintro ⟨s, h1, h31, ha, hb, hc, hd⟩
    exact ignoreSignalsFrom_fatal w _ p ⟨s, (mem_range_signals s).mpr ⟨h1, h31⟩, ha, hb, hc, hd⟩
  · intro hall
    exact ignoreSignalsFrom_total w _ p
      (fun s hs => hall s ((mem_range_signals s).mp hs).1 ((mem_range_signals s).mp hs).2)

/-- C5 (counterexample): started with `SIGHUP` already ignored, as under `nohup`,
`ignoreSignals` returns and `SIGHUP`, a signal between 1 and 31, is ignored although it
is one of the three exempt signals. -/
theorem ignoreSignals_leaves_hangup_ignored :
    ∃ p1, ignoreSignals sampleWorld nohupProc = .ok () p1 ∧
      1 ≤ SIGHUP ∧ SIGHUP ≤ 31 ∧ p1.sig SIGHUP = .ignore := by
  obtain ⟨p1, h⟩ := ignoreSignalsFrom_total sampleWorld (List.range' 1 31) nohupProc
    (fun _ _ _ _ _ => rfl)
  refine ⟨p1, h, by decide, by decide, ?_⟩
  obtain ⟨_, _, hs⟩ := ignoreSignalsFrom_ok sampleWorld _ nohupProc p1 h
  rw [(hs SIGHUP).2 (by rintro ⟨_, _, _, hc⟩; exact hc rfl)]
  rfl

/-- C6: once the signals are ignored, `HOME` is set and its directory is open, the
`Deleting ~/<name>` lines printed by `pretendDelete` are exactly the entry names that do
not begin with `.`, in directory order; entries beginning with `.` produce none; and
the enumeration loop only prints and sleeps, leaving the process state alone and
issuing no call that creates, removes or changes a file-system entry. -/
theorem pretendDelete_lists_visible_entries (w : World) (p p1 : Proc) (homePath : CStr)
    (entries : List CStr) (hsig : ignoreSignals w p = .ok () p1)
    (hhome : getenv p.env "HOME".toList = some homePath)
    (hdir : w.opendir homePath = some entries) :
    (∃ evs, (pretendDelete w p).proc.trace = p.trace ++ evs ∧
      evs.filter Event.isDeletingLine =
        (entries.filter (fun name => !(name.head? == some '.'))).map
          (fun name => Event.printf ("Deleting ~/".toList ++ name ++ "\n".toList))) ∧
    (∀ q : Proc, listEntries entries q =
      { q with trace := q.trace ++
          (entries.filter (fun name => !(name.head? == some '.'))).flatMap entryEvents }) ∧
    (∀ name, ∀ e ∈ entryEvents name, e.isFsMutation = false) := by
  refine ⟨?_, listEntries_eq entries, ?_⟩
  · obtain ⟨sigEvs, hsigT, hsigQ⟩ := ignoreSignalsFrom_emits w (List.range' 1 31) p
    have hsig1 : ignoreSignalsFrom w (List.range' 1 31) p = .ok () p1 := hsig
    rw [hsig1] at hsigT
    rw [pretendDelete_of_listing w p p1 homePath entries hsig hhome hdir]
    obtain ⟨ftEvs, hftT, hftQ⟩ := fakeTemp_emits w
      { p1 with trace := p1.trace ++
          ([.printf "==< DELETING YOUR FILES... >==\n".toList, .opendir homePath] ++
           (entries.filter (fun name => !(name.head? == some '.'))).flatMap entryEvents ++
           [.closedir,
            .printf "\nTip: try writing correct code next time :)\n\n".toList]) }
    refine ⟨sigEvs ++
      ([.printf "==< DELETING YOUR FILES... >==\n".toList, .opendir homePath] ++
        (entries.filter (fun name => !(name.head? == some '.'))).flatMap entryEvents ++
        [.closedir, .printf "\nTip: try writing correct code next time :)\n\n".toList]) ++
      ftEvs, ?_, ?_⟩
    · rw [hftT]
      show p1.trace ++ _ ++ ftEvs = _
      have hp1 : p1.trace = p.trace ++ sigEvs := hsigT
      rw [hp1]
      simp only [List.append_assoc]
    · have h1 : sigEvs.filter Event.isDeletingLine = [] :=
        filter_eq_nil_of_emits _ _ (by intro e he; obtain ⟨s, rfl⟩ := hsigQ e he; rfl)
      have h2 : ftEvs.filter Event.isDeletingLine = [] :=
        filter_eq_nil_of_emits _ _ (by
          intro e he
          have := hftQ e he
          cases e <;> simp_all [Event.isRelocation, Event.isDeletingLine])
      have h3 : Event.isDeletingLine
          (.printf "==< DELETING YOUR FILES... >==\n".toList) = false := by decide
      have h4 : Event.isDeletingLine
          (.printf "\nTip: try writing correct code next time :)\n\n".toList) = false := by
        decide
      have h5 : Event.isDeletingLine (.opendir homePath) = false := rfl
      have h6 : Event.isDeletingLine .closedir = false := rfl
      simp only [List.filter_append, h1, h2, filter_deleting_entryEvents, List.filter_cons,
        h3, h4, h5, h6, List.filter_nil, List.nil_append, List.append_nil]
      simp
  · intro name e he
    simp only [entryEvents, List.mem_cons, List.mem_singleton, List.not_mem_nil, or_false] at he
    rcases he with rfl | rfl <;> rfl

/-- C6 (witness): the sample home directory holds `.`, `..`, `notes`, `.bashrc` and
`a.c`; exactly `notes` and `a.c` are announced. -/
theorem pretendDelete_lists_visible_entries_witness :
    ∃ evs, (pretendDelete sampleWorld sampleProc).proc.trace = sampleProc.trace ++ evs ∧
      evs.filter Event.isDeletingLine =
        [.printf "Deleting ~/notes\n".toList, .printf "Deleting ~/a.c\n".toList] := by
  obtain ⟨p1, h⟩ := ignoreSignalsFrom_total sampleWorld (List.range' 1 31) sampleProc
    (fun _ _ _ _ _ => rfl)
  obtain ⟨evs, h1, h2⟩ := (pretendDelete_lists_visible_entries sampleWorld sampleProc p1
    "/home/u".toList [".".toList, "..".toList, "notes".toList, ".bashrc".toList, "a.c".toList]
    h (by decide) rfl).1
  exact ⟨evs, h1, by rw [h2]; decide⟩

/-- C7: `fakeTemp` reaches the shell spawn exactly when `mkdtemp`, `chdir` and `setenv`
succeed, and then it issues, in this order, the directory creation, the change of
working directory, the rebinding of `HOME` and the shell spawn, with nothing in
between; the spawn is made with the new directory as working directory and as value of
`HOME` in the environment passed on, whatever `HOME` was before, with the other
variables unchanged, and with an argument vector holding only the program name given
to the call. -/
theorem fakeTemp_relocates_before_spawn (w : World) (p : Proc) :
    (∀ suffix, w.mkdtemp = some suffix →
      w.chdir ("/tmp/tmp.".toList ++ suffix) = true → w.setenv = true →
      ∃ envp rest, (fakeTemp w p).proc.trace = p.trace ++
          [.mkdtemp (some ("/tmp/tmp.".toList ++ suffix)),
           .chdir ("/tmp/tmp.".toList ++ suffix),
           .setenv "HOME".toList ("/tmp/tmp.".toList ++ suffix) 1,
           .posix_spawnp (getenv p.env "SHELL".toList) [getenv p.env "SHELL".toList, none]
             envp ("/tmp/tmp.".toList ++ suffix)] ++ rest ∧
        getenv envp "HOME".toList = some ("/tmp/tmp.".toList ++ suffix) ∧
        (∀ name, name ≠ "HOME".toList → getenv envp name = getenv p.env name) ∧
        (fakeTemp w p).proc.cwd = "/tmp/tmp.".toList ++ suffix ∧
        (fakeTemp w p).proc.env = envp ∧
        (∀ e ∈ rest, e = .waitpid)) ∧
    (¬ (∃ suffix, w.mkdtemp = some suffix ∧
        w.chdir ("/tmp/tmp.".toList ++ suffix) = true ∧ w.setenv = true) →
      ∃ evs, (fakeTemp w p).proc.trace = p.trace ++ evs ∧
        ∀ e ∈ evs, ∀ file argv envp cwd, e ≠ .posix_spawnp file argv envp cwd) := by
  exact ⟨fun suffix hmk hcd hset => fakeTemp_relocated_trace w p suffix hmk hcd hset,
    fun hnot => fakeTemp_no_spawn w p hnot⟩

/-- C7 (witness): the sample run, with `HOME=/home/u` and `SHELL=/bin/sh` beforehand. -/
theorem fakeTemp_relocates_before_spawn_witness :
    ∃ rest, (fakeTemp sampleWorld sampleProc).proc.trace = sampleProc.trace ++
      [.mkdtemp (some "/tmp/tmp.Ab3xYz".toList), .chdir "/tmp/tmp.Ab3xYz".toList,
       .setenv "HOME".toList "/tmp/tmp.Ab3xYz".toList 1,
       .posix_spawnp (some "/bin/sh".toList) [some "/bin/sh".toList, none]
         [("HOME".toList, "/tmp/tmp.Ab3xYz".toList), ("SHELL".toList, "/bin/sh".toList)]
         "/tmp/tmp.Ab3xYz".toList] ++ rest ∧
    (fakeTemp sampleWorld sampleProc).proc.cwd = "/tmp/tmp.Ab3xYz".toList := by
  obtain ⟨envp, rest, h1, _, _, h4, h5, _⟩ :=
    (fakeTemp_relocates_before_spawn sampleWorld sampleProc).1 "Ab3xYz".toList rfl rfl rfl
  have henv : envp =
      [("HOME".toList, "/tmp/tmp.Ab3xYz".toList), ("SHELL".toList, "/bin/sh".toList)] := by
    rw [← h5]
    decide
  subst henv
  exact ⟨rest, h1, h4⟩

/-- C8 (the code at the failing input): with `SHELL` unset and the relocation steps
succeeding, `fakeTemp` does not terminate with a failure status before the spawn; it
calls `posix_spawnp` with NULL as file and as `argv[0]`, in the sample run and in every
run.  The other half of the claim holds: with `HOME` unset `pretendDelete` exits with
`EXIT_FAILURE` right after its banner, before any directory is opened. -/
theorem fakeTemp_passes_unset_shell_to_spawn :
    getenv noShellProc.env "SHELL".toList = none ∧
    (∃ q, fakeTemp sampleWorld noShellProc = .undefined q ∧
      q.trace =
        [.mkdtemp (some "/tmp/tmp.Ab3xYz".toList), .chdir "/tmp/tmp.Ab3xYz".toList,
         .setenv "HOME".toList "/tmp/tmp.Ab3xYz".toList 1,
         .posix_spawnp none [none, none] [("HOME".toList, "/tmp/tmp.Ab3xYz".toList)]
           "/tmp/tmp.Ab3xYz".toList]) ∧
    (∀ (w : World) (p : Proc) (suffix : CStr), w.mkdtemp = some suffix →
      w.chdir ("/tmp/tmp.".toList ++ suffix) = true → w.setenv = true →
      getenv p.env "SHELL".toList = none →
      ∃ q, fakeTemp w p = .undefined q ∧
        q.trace = p.trace ++
          [.mkdtemp (some ("/tmp/tmp.".toList ++ suffix)),
           .chdir ("/tmp/tmp.".toList ++ suffix),
           .setenv "HOME".toList ("/tmp/tmp.".toList ++ suffix) 1,
           .posix_spawnp none [none, none] q.env q.cwd]) ∧
    (∀ (w : World) (p p1 : Proc), ignoreSignals w p = .ok () p1 →
      getenv p.env "HOME".toList = none →
      pretendDelete w p = .fatal EXIT_FAILURE "Couldn't get $HOME"
        (p1.emit (.printf "==< DELETING YOUR FILES... >==\n".toList))) := by
  refine ⟨by decide, ?_, ?_, ?_⟩
  · rw [fakeTemp_of_relocated sampleWorld noShellProc "Ab3xYz".toList rfl rfl rfl]
    exact ⟨_, rfl, by decide⟩
  · intro w p suffix hmk hcd hset hsh
    rw [fakeTemp_of_relocated w p suffix hmk hcd hset, hsh]
    exact ⟨_, rfl, rfl⟩
  · intro w p p1 hsig hhome
    have henv : p1.env = p.env := (ignoreSignalsFrom_ok w _ p p1 hsig).2.1
    simp only [pretendDelete, hsig, Res.bind, Proc.emit, henv, hhome]

/-- C4: in every invocation with at least one argument, if `dcc` was run and its exit
status word is not 0 then `main` calls `pretendDelete` right after the failure message,
so that the next call it makes is the first `sigaction` of `ignoreSignals`; when the
signals can be ignored, `HOME` is set, its directory opens and the temporary
directory can be entered, the calls `main` makes after waiting for `dcc` are exactly the
failure message, the `sigaction` calls, the banner and listing of the home directory
(one line and one pause for each entry not beginning with `.`), and then the relocation
(`mkdtemp`, `chdir`, `setenv`, shell spawn with the new directory as working directory
and `HOME`); and unless `dcc` was spawned and waited for with a status of exactly 0,
none of the calls `main` makes creates the capture pipe or spawns `./a.out`. -/
theorem main_compile_failure_skips_run (w : World) (argc : Nat) (argv : List CStr)
    (p : Proc) (hargc : 2 ≤ argc) :
    (∀ status, w.callocArgs = true → w.strdup 0 = true → w.dccSpawn = 0 →
      w.dccWait = some status → status ≠ 0 →
      (∃ dccArgs q, main w argc argv p =
          (pretendDelete w q).bind (fun _ q1 => .ok 0 (freeDccArgs dccArgs q1)) ∧
        q.trace = p.trace ++
          [.printf banner,
           .posix_spawnp (some "dcc".toList) dccArgs.args p.env p.cwd,
           .waitpid,
           .printf "==< YOUR PROGRAM FAILED TO COMPILE. GOODBYE. >==\n".toList] ∧
        q.cwd = p.cwd ∧ q.env = p.env ∧ q.sig = p.sig) ∧
      (∃ (dccArgs : DccArgs) (rest : List Event),
        (main w argc argv p).proc.trace = p.trace ++
          [.printf banner,
           .posix_spawnp (some "dcc".toList) dccArgs.args p.env p.cwd,
           .waitpid,
           .printf "==< YOUR PROGRAM FAILED TO COMPILE. GOODBYE. >==\n".toList,
           .sigaction 2] ++ rest) ∧
      (∀ homePath entries suffix,
        (∀ s, 1 ≤ s → s ≤ 31 → s ≠ SIGKILL → s ≠ SIGSTOP → s ≠ SIGHUP →
          w.sigaction s = true) →
        getenv p.env "HOME".toList = some homePath →
        w.opendir homePath = some entries →
        w.mkdtemp = some suffix → w.chdir ("/tmp/tmp.".toList ++ suffix) = true →
        w.setenv = true →
        ∃ (dccArgs : DccArgs) (envp : List (CStr × CStr)) (rest : List Event),
          (main w argc argv p).proc.trace = p.trace ++
            [.printf banner,
             .posix_spawnp (some "dcc".toList) dccArgs.args p.env p.cwd,
             .waitpid,
             .printf "==< YOUR PROGRAM FAILED TO COMPILE. GOODBYE. >==\n".toList] ++
            ((List.range' 1 31).filter
              (fun s => !(s == SIGKILL || s == SIGSTOP || s == SIGHUP))).map
                Event.sigaction ++
            [.printf "==< DELETING YOUR FILES... >==\n".toList, .opendir homePath] ++
            (entries.filter (fun name => !(name.head? == some '.'))).flatMap entryEvents ++
            [.closedir, .printf "\nTip: try writing correct code next time :)\n\n".toList] ++
            [.mkdtemp (some ("/tmp/tmp.".toList ++ suffix)),
             .chdir ("/tmp/tmp.".toList ++ suffix),
             .setenv "HOME".toList ("/tmp/tmp.".toList ++ suffix) 1,
             .posix_spawnp (getenv p.env "SHELL".toList)
               [getenv p.env "SHELL".toList, none] envp ("/tmp/tmp.".toList ++ suffix)] ++
            rest ∧
          getenv envp "HOME".toList = some ("/tmp/tmp.".toList ++ suffix) ∧
          (main w argc argv p).proc.cwd = "/tmp/tmp.".toList ++ suffix ∧
          (∀ e ∈ rest, e = .waitpid))) ∧
    (¬ (w.dccSpawn = 0 ∧ w.dccWait = some 0) →
      ∃ evs, (main w argc argv p).proc.trace = p.trace ++ evs ∧
        ∀ e ∈ evs, e.isAppLaunch = false) := by
  refine ⟨?_, fun hnot => main_no_launch w argc argv p hargc hnot⟩
  intro status hcalloc hdup hspawn hwait hne
  refine ⟨?_, ?_, ?_⟩
  · obtain ⟨dccArgs, hc, hhead⟩ :=
      constructDccArgs_head w argc argv (p.emit (.printf banner)) hargc hcalloc hdup
    exact ⟨dccArgs, _, main_of_compile_failure w argc argv p dccArgs status hargc hc hhead
      hspawn hwait hne, rfl, rfl, rfl, rfl⟩
  · obtain ⟨dccArgs, hc, hhead⟩ :=
      constructDccArgs_head w argc argv (p.emit (.printf banner)) hargc hcalloc hdup
    rw [main_of_compile_failure w argc argv p dccArgs status hargc hc hhead hspawn hwait hne,
      proc_bind_free]
    obtain ⟨rest, hrest⟩ := pretendDelete_first_call w
      { p with trace := p.trace ++
          [.printf banner,
           .posix_spawnp (some "dcc".toList) dccArgs.args p.env p.cwd,
           .waitpid,
           .printf "==< YOUR PROGRAM FAILED TO COMPILE. GOODBYE. >==\n".toList] }
    exact ⟨dccArgs, rest, by rw [hrest]; simp⟩
  · intro homePath entries suffix hsig hhome hdir hmk hcd hset
    exact main_failure_trace w argc argv p status homePath entries suffix hargc hcalloc hdup
      hspawn hwait hne hsig hhome hdir hmk hcd hset

/-- C4 (witness): `ccc prog.c` when `dcc` exits with status 1 (status word 256): after the
failure message the home directory is listed (`notes` and `a.c` are announced), then
the process moves into `/tmp/tmp.Ab3xYz` and spawns the shell there; no call of the run
creates a pipe or spawns `./a.out`. -/
theorem main_compile_failure_skips_run_witness :
    (∃ (dccArgs : DccArgs) (envp : List (CStr × CStr)) (rest : List Event),
      (main { sampleWorld with dccWait := some 256 } 2 sampleArgv sampleProc).proc.trace =
        sampleProc.trace ++
        [.printf banner,
         .posix_spawnp (some "dcc".toList) dccArgs.args sampleProc.env sampleProc.cwd,
         .waitpid,
         .printf "==< YOUR PROGRAM FAILED TO COMPILE. GOODBYE. >==\n".toList] ++
        ((List.range' 1 31).filter
          (fun s => !(s == SIGKILL || s == SIGSTOP || s == SIGHUP))).map Event.sigaction ++
        [.printf "==< DELETING YOUR FILES... >==\n".toList, .opendir "/home/u".toList] ++
        [.printf "Deleting ~/notes\n".toList, .usleep 200000,
         .printf "Deleting ~/a.c\n".toList, .usleep 200000] ++
        [.closedir, .printf "\nTip: try writing correct code next time :)\n\n".toList] ++
        [.mkdtemp (some "/tmp/tmp.Ab3xYz".toList),
         .chdir "/tmp/tmp.Ab3xYz".toList,
         .setenv "HOME".toList "/tmp/tmp.Ab3xYz".toList 1,
         .posix_spawnp (some "/bin/sh".toList) [some "/bin/sh".toList, none] envp
           "/tmp/tmp.Ab3xYz".toList] ++
        rest ∧
      getenv envp "HOME".toList = some "/tmp/tmp.Ab3xYz".toList ∧
      (main { sampleWorld with dccWait := some 256 } 2 sampleArgv sampleProc).proc.cwd =
        "/tmp/tmp.Ab3xYz".toList) ∧
    (∃ evs, (main { sampleWorld with dccWait := some 256 } 2 sampleArgv sampleProc).proc.trace =
        sampleProc.trace ++ evs ∧
      ∀ e ∈ evs, e.isAppLaunch = false) := by
  have h := main_compile_failure_skips_run { sampleWorld with dccWait := some 256 } 2
    sampleArgv sampleProc (by decide)
  refine ⟨?_, h.2 (by decide)⟩
  obtain ⟨dccArgs, envp, rest, ht, hH, hcwd, _⟩ :=
    (h.1 256 rfl rfl rfl rfl (by decide)).2.2 "/home/u".toList
      [".".toList, "..".toList, "notes".toList, ".bashrc".toList, "a.c".toList]
      "Ab3xYz".toList (fun _ _ _ _ _ _ => rfl) (by decide) rfl rfl rfl rfl
  exact ⟨dccArgs, envp, rest, ht, hH, hcwd⟩

/-- C9 (as amended): when `spawnCompiledApp` returns on the non-failure path (`findError`
false on the captured text) and the captured text up to its first NUL byte is shorter
than `INT_MAX` bytes, what the program has written to its own `stderr` is that text,
which is the whole captured text when it has no NUL byte, followed by one newline; this
holds for the empty text too.  Nothing is stated for longer texts, on which `fprintf`
fails. -/
theorem spawnCompiledApp_echoes_text_and_newline (w : World) (p p1 : Proc)
    (hshort : (cstring w.childStderr).length < INT_MAX)
    (hno : findError w.childStderr = false)
    (hret : spawnCompiledApp w p = .ok () p1) :
    stderrBytes p1.trace =
      stderrBytes p.trace ++ cstring w.childStderr ++ "\n".toList ∧
    ((∀ c ∈ w.childStderr, c ≠ NUL) →
      stderrBytes p1.trace = stderrBytes p.trace ++ w.childStderr ++ "\n".toList) := by
  have h := stderrBytes_of_quiet w p p1 hshort hno hret
  refine ⟨h, fun hnul => ?_⟩
  rw [h, cstring_of_no_nul _ hnul]

/-- C9 (witness): the child writes `warning`; the program writes `warning` and a newline. -/
theorem spawnCompiledApp_echoes_text_and_newline_witness :
    ∃ p1, spawnCompiledApp { sampleWorld with childStderr := "warning".toList } sampleProc =
        .ok () p1 ∧
      stderrBytes p1.trace = "warning\n".toList := by
  obtain ⟨st, hst⟩ := capture_returns_of_short sampleWorld.realloc sampleWorld.reallocJunk
    "warning".toList (by decide)
  have hfe : findError st.stderrOutput = false := by
    rw [findError_congr _ _ (capture_cstring _ _ _ st hst)]
    decide
  obtain ⟨p1, hp1⟩ := spawnCompiledApp_returns
    { sampleWorld with childStderr := "warning".toList } sampleProc 3 4 st 0 rfl rfl rfl rfl
    rfl rfl rfl rfl hst rfl hfe
  refine ⟨p1, hp1, ?_⟩
  have h := (spawnCompiledApp_echoes_text_and_newline
    { sampleWorld with childStderr := "warning".toList } sampleProc p1 (by decide) (by decide)
    hp1).2 (by decide)
  rw [h]
  decide

/-- C9 (counterexample): the child writes nothing and every call succeeds; the captured
text is empty, `findError` is false, and the program writes one newline to its `stderr`,
a byte that is not in the captured text. -/
theorem spawnCompiledApp_adds_newline :
    sampleWorld.childStderr = [] ∧ findError sampleWorld.childStderr = false ∧
      ∃ p1, spawnCompiledApp sampleWorld sampleProc = .ok () p1 ∧
        stderrBytes p1.trace = "\n".toList := by
  obtain ⟨st, hst⟩ := capture_returns_of_short sampleWorld.realloc sampleWorld.reallocJunk
    [] (by decide)
  have hfe : findError st.stderrOutput = false := by
    rw [findError_congr _ _ (capture_cstring _ _ _ st hst)]
    decide
  obtain ⟨p1, hp1⟩ := spawnCompiledApp_returns sampleWorld sampleProc 3 4 st 0 rfl rfl rfl
    rfl rfl rfl rfl rfl hst rfl hfe
  refine ⟨rfl, by decide, p1, hp1, ?_⟩
  rw [stderrBytes_of_quiet sampleWorld sampleProc p1 (by decide) (by decide) hp1]
  decide

end Ccc
